import Mathlib

/-!
Verification development for the CompassQL specification-query core
(`src/query/spec.ts` and `src/constraint/spec.ts`).

The data model (channels, marks, encoding-query variants, the Wildcard Value)
and the model/encoding helper operations live in repository modules that are
not part of the two source files; those are modelled from the design
specification and carry a doc comment starting `Modelled from the spec:`.
Everything else is a direct translation of the TypeScript source.
-/

set_option maxHeartbeats 1000000

/-- Modelled from the spec: encoding channels of the Property Catalogue
(positional `x`/`y`, mark properties, facet channels). -/
inductive Channel
  | x | y | color | size | shape | text | detail | opacity | row | column
deriving DecidableEq, Repr

/-- Modelled from the spec: the mark types of the external chart grammar.
`geoshape` is a mark of the external library that none of the exhaustive
mark switches in the constraint catalogue handles. -/
inductive Mark
  | area | bar | circle | line | point | rect | rule | square | text | tick | geoshape
deriving DecidableEq, Repr

def markName : Mark → String
  | .area => "area" | .bar => "bar" | .circle => "circle" | .line => "line"
  | .point => "point" | .rect => "rect" | .rule => "rule" | .square => "square"
  | .text => "text" | .tick => "tick" | .geoshape => "geoshape"

/-- Modelled from the spec: measurement types of a field (the expanded type
set includes `key` besides the four basic types). -/
inductive MType
  | quantitative | nominal | ordinal | temporal | key
deriving DecidableEq, Repr

/-- Modelled from the spec: aggregation operations; `SUM_OPS` of the external
library is the summative subset. -/
inductive AggregateOp
  | sum | mean | median | min | max | count | distinct | valid | missing
deriving DecidableEq, Repr

/-- The summative aggregation operations (external library's `SUM_OPS`). -/
def SUM_OPS : List AggregateOp := [.count, .sum, .distinct, .valid, .missing]

/-- Modelled from the spec: scale types of the external library. -/
inductive ScaleTy
  | linear | log | pow | sqrt | time | utc | point | band
deriving DecidableEq, Repr

/-- Modelled from the spec: time units (only their presence matters to the
rules translated here). -/
inductive TimeUnit
  | year | month | day | hours | minutes
deriving DecidableEq, Repr

/-- Modelled from the spec: stack offsets that an explicit `stack` property
can carry (any concrete offset string is truthy in the source). -/
inductive StackOffset
  | zero | center | normalize
deriving DecidableEq, Repr

/-- Modelled from the spec: a Wildcard Value — a value that is either concrete
or a placeholder standing for "any legal value here".  The placeholder's
logical name and candidate enumeration play no role in the translated rules,
so they are not carried. -/
inductive WildcardProperty (α : Type)
  | concrete (a : α)
  | wildcard
deriving DecidableEq, Repr

/-- Modelled from the spec: the predicate testing whether a value is a
Wildcard Value placeholder. -/
def isWildcard {α : Type} : WildcardProperty α → Bool
  | .wildcard => true
  | .concrete _ => false

/-- `isWildcard(encQ[prop])` for an optional property (`undefined` is not a
wildcard). -/
def optIsWildcard {α : Type} : Option (WildcardProperty α) → Bool
  | some .wildcard => true
  | _ => false

/-- JavaScript truthiness `!!encQ[prop]` for an optional property whose
concrete values are truthy (non-empty strings / objects); a wildcard
placeholder (`'?'` or an object) is truthy as well. -/
def optTruthy {α : Type} : Option (WildcardProperty α) → Bool
  | some _ => true
  | none => false

/-- JavaScript truthiness `!!encQ[prop]` for an optional boolean-valued
property: a concrete `false` is falsy, a wildcard placeholder is truthy. -/
def optBoolTruthy : Option (WildcardProperty Bool) → Bool
  | some (.concrete b) => b
  | some .wildcard => true
  | none => false

/-- `!isWildcard(encQ[prop]) && !!encQ[prop]` for a truthy-concrete-valued
optional property. -/
def optConcTruthy {α : Type} : Option (WildcardProperty α) → Bool
  | some (.concrete _) => true
  | _ => false

/-- `!isWildcard(encQ[prop]) && !!encQ[prop]` for a boolean-valued optional
property. -/
def optConcBoolTruthy : Option (WildcardProperty Bool) → Bool
  | some (.concrete b) => b
  | _ => false

/-- Modelled from the spec: a scale sub-object of a field-backed encoding;
only the `type` and `zero` nested options are read by the translated rules. -/
structure ScaleQ where
  scaleType : Option (WildcardProperty ScaleTy) := none
  zero : Option (WildcardProperty Bool) := none
deriving DecidableEq, Repr

/-- Modelled from the spec: a field-backed Encoding Mapping: a channel plus
field/type/aggregate/bin/timeUnit/stack/scale properties, each of which may
independently be absent, concrete, or a Wildcard Value.  A boolean-false
`scale` (the "no scale" normalization) behaves exactly like an absent scale
in every translated rule (only truthiness and child access are used), so it
is represented by `none`. -/
structure FieldQ where
  channel : WildcardProperty Channel
  field : Option (WildcardProperty String) := none
  type : Option (WildcardProperty MType) := none
  aggregate : Option (WildcardProperty AggregateOp) := none
  bin : Option (WildcardProperty Bool) := none
  timeUnit : Option (WildcardProperty TimeUnit) := none
  stack : Option (WildcardProperty StackOffset) := none
  scale : Option (WildcardProperty ScaleQ) := none
deriving DecidableEq, Repr

/-- Modelled from the spec: an auto-count Encoding Mapping — the implicit
"count of records" measure; `autoCount` may be `true` (enabled), `false`
(disabled, i.e. resolved to "no count") or a wildcard. -/
structure AutoCountQ where
  channel : WildcardProperty Channel
  autoCount : WildcardProperty Bool
  type : Option (WildcardProperty MType) := some (.concrete .quantitative)
deriving DecidableEq, Repr

/-- Modelled from the spec: a literal-value Encoding Mapping (a constant, not
data-driven). -/
structure ValueQ where
  channel : WildcardProperty Channel
deriving DecidableEq, Repr

/-- Modelled from the spec: one entry of the encodings list; the three
variants are mutually exclusive per mapping. -/
inductive EncodingQuery
  | fieldQ (q : FieldQ)
  | autoCountQ (q : AutoCountQ)
  | valueQ (q : ValueQ)
deriving DecidableEq, Repr

/-- The channel of any encoding-query variant. -/
def EncodingQuery.channel : EncodingQuery → WildcardProperty Channel
  | .fieldQ q => q.channel
  | .autoCountQ q => q.channel
  | .valueQ q => q.channel

/-- Modelled from the spec: discriminator for the field-backed variant. -/
def isFieldQuery : EncodingQuery → Bool
  | .fieldQ _ => true
  | _ => false

/-- Modelled from the spec: discriminator for the auto-count variant. -/
def isAutoCountQuery : EncodingQuery → Bool
  | .autoCountQ _ => true
  | _ => false

/-- Modelled from the spec: discriminator for the literal-value variant. -/
def isValueQuery : EncodingQuery → Bool
  | .valueQ _ => true
  | _ => false

/-- Modelled from the spec: an auto-count mapping whose `autoCount` is the
concrete value `true`. -/
def isEnabledAutoCountQuery : EncodingQuery → Bool
  | .autoCountQ q => q.autoCount == .concrete true
  | _ => false

/-- Modelled from the spec: an auto-count mapping explicitly disabled
(`autoCount` is the concrete value `false`). -/
def isDisabledAutoCountQuery : EncodingQuery → Bool
  | .autoCountQ q => q.autoCount == .concrete false
  | _ => false

/-- A Specification Query (`src/query/spec.ts`): a mark (possibly wildcard)
plus the ordered encodings list.  The optional data/transform/config carry no
information read by any translated rule and are omitted here; the
normalization front-end (`fromSpec`) is treated separately below. -/
structure SpecQuery where
  mark : WildcardProperty Mark
  encodings : List EncodingQuery
deriving DecidableEq, Repr

/-- `isAggregate` (src/query/spec.ts line 81): some encoding has a concrete
truthy aggregate, or is an enabled auto count. -/
def isAggregate (specQ : SpecQuery) : Bool :=
  specQ.encodings.any fun encQ =>
    (match encQ with
     | .fieldQ q => !(optIsWildcard q.aggregate) && optTruthy q.aggregate
     | _ => false) || isEnabledAutoCountQuery encQ

/-- `isExplicitStack` (src/query/spec.ts line 99): some field-backed encoding
has a concrete truthy `stack` property. -/
def isExplicitStack (specQ : SpecQuery) : Bool :=
  specQ.encodings.any fun encQ =>
    match encQ with
    | .fieldQ q => !(optIsWildcard q.stack) && optTruthy q.stack
    | _ => false

/-- The four flags accumulated by the loop of `isImplicitStack`
(src/query/spec.ts lines 117-120). -/
structure ImplicitStackFlags where
  xUsed : Bool := false
  yUsed : Bool := false
  xOrYAggregateOrAutoCount : Bool := false
  colorUsed : Bool := false
deriving DecidableEq, Repr

/-- One iteration of the loop of `isImplicitStack` (src/query/spec.ts lines
121-141).  The source `switch` has no `break` statements: the `Channel.X`
case falls through into the `Channel.Y` and `Channel.COLOR` case bodies, and
the `Channel.Y` case falls through into the `Channel.COLOR` case body.  That
fallthrough is translated literally here. -/
def implicitStackStep (st : ImplicitStackFlags) (encQ : EncodingQuery) : ImplicitStackFlags :=
  match encQ with
  | .fieldQ q =>
    match q.channel with
    | .concrete .x =>
      let st := { st with xUsed := true,
                          xOrYAggregateOrAutoCount :=
                            st.xOrYAggregateOrAutoCount || optTruthy q.aggregate }
      let st := { st with yUsed := true,
                          xOrYAggregateOrAutoCount :=
                            st.xOrYAggregateOrAutoCount || optTruthy q.aggregate }
      { st with colorUsed := true }
    | .concrete .y =>
      let st := { st with yUsed := true,
                          xOrYAggregateOrAutoCount :=
                            st.xOrYAggregateOrAutoCount || optTruthy q.aggregate }
      { st with colorUsed := true }
    | .concrete .color => { st with colorUsed := true }
    | _ => st
  | .autoCountQ q =>
    if q.channel == .concrete .x || q.channel == .concrete .y then
      { st with xOrYAggregateOrAutoCount := true }
    else st
  | .valueQ _ => st

/-- `isImplicitStack` (src/query/spec.ts lines 111-144), translated with the
source's switch fallthrough intact. -/
def isImplicitStack (specQ : SpecQuery) : Bool :=
  if isExplicitStack specQ then false
  else
    let flags := specQ.encodings.foldl implicitStackStep {}
    flags.xUsed && flags.yUsed && flags.xOrYAggregateOrAutoCount && flags.colorUsed

/-- Follows the spec's words (§4.2 stack resolution): implicit stacking
requires, as independent facts about the whole encodings list, a field-backed
`x` encoding, a field-backed `y` encoding, a field-backed `color` encoding,
and at least one `x`/`y` encoding with a concrete aggregate or an enabled
auto count on `x`/`y`; and the query is not explicitly stacked. -/
def isImplicitStackSpec (specQ : SpecQuery) : Bool :=
  !(isExplicitStack specQ) &&
  (specQ.encodings.any fun e => isFieldQuery e && e.channel == .concrete .x) &&
  (specQ.encodings.any fun e => isFieldQuery e && e.channel == .concrete .y) &&
  (specQ.encodings.any fun e => isFieldQuery e && e.channel == .concrete .color) &&
  (specQ.encodings.any fun e =>
    (match e with
     | .fieldQ q => (q.channel == .concrete .x || q.channel == .concrete .y) &&
                    optConcTruthy q.aggregate
     | _ => false) ||
    (isEnabledAutoCountQuery e &&
      (e.channel == .concrete .x || e.channel == .concrete .y)))

/-- `isStack` (src/query/spec.ts line 91). -/
def isStack (specQ : SpecQuery) : Bool :=
  isExplicitStack specQ || isImplicitStack specQ

/-- Modelled from the spec: the flat property names of the Property
Catalogue (the mark, and the top-level per-encoding properties read by the
constraint catalogue). -/
inductive FlatProp
  | mark | channel | field | type | aggregate | bin | timeUnit | stack | autoCount | scale
deriving DecidableEq, Repr

/-- The canonical string key of a flat property. -/
def flatPropKey : FlatProp → String
  | .mark => "mark" | .channel => "channel" | .field => "field" | .type => "type"
  | .aggregate => "aggregate" | .bin => "bin" | .timeUnit => "timeUnit"
  | .stack => "stack" | .autoCount => "autoCount" | .scale => "scale"

/-- Modelled from the spec: a Property is flat, or nested (a parent/child
pair such as the `zero` option inside an encoding's `scale` object). -/
inductive Property
  | flat (p : FlatProp)
  | nested (parent : FlatProp) (child : String)
deriving DecidableEq, Repr

/-- `getEncodingNestedProp` of the property module. -/
def getEncodingNestedProp (parent : FlatProp) (child : String) : Property :=
  .nested parent child

/-- `toKey`: flat name, or `"parent.child"` for a nested property. -/
def toKey : Property → String
  | .flat p => flatPropKey p
  | .nested parent child => flatPropKey parent ++ "." ++ child

/-- JavaScript truthiness of `encQ[prop]` for a flat encoding property
(an absent property — `undefined` — and a concrete `false` are falsy;
concrete strings/objects and wildcard placeholders are truthy; an empty
string field is falsy). -/
def encPropTruthy (encQ : EncodingQuery) : FlatProp → Bool
  | .mark => false
  | .channel => true
  | .field => match encQ with
    | .fieldQ q => match q.field with
      | some (.concrete s) => s != ""
      | some .wildcard => true
      | none => false
    | _ => false
  | .type => match encQ with
    | .fieldQ q => optTruthy q.type
    | .autoCountQ q => optTruthy q.type
    | .valueQ _ => false
  | .aggregate => match encQ with
    | .fieldQ q => optTruthy q.aggregate
    | _ => false
  | .bin => match encQ with
    | .fieldQ q => optBoolTruthy q.bin
    | _ => false
  | .timeUnit => match encQ with
    | .fieldQ q => optTruthy q.timeUnit
    | _ => false
  | .stack => match encQ with
    | .fieldQ q => optTruthy q.stack
    | _ => false
  | .autoCount => match encQ with
    | .autoCountQ q => (match q.autoCount with
      | .concrete b => b
      | .wildcard => true)
    | _ => false
  | .scale => match encQ with
    | .fieldQ q => optTruthy q.scale
    | _ => false

/-- `isWildcard(encQ[prop])` for a flat encoding property. -/
def encPropIsWildcard (encQ : EncodingQuery) : FlatProp → Bool
  | .mark => false
  | .channel => isWildcard encQ.channel
  | .field => match encQ with
    | .fieldQ q => optIsWildcard q.field
    | _ => false
  | .type => match encQ with
    | .fieldQ q => optIsWildcard q.type
    | .autoCountQ q => optIsWildcard q.type
    | .valueQ _ => false
  | .aggregate => match encQ with
    | .fieldQ q => optIsWildcard q.aggregate
    | _ => false
  | .bin => match encQ with
    | .fieldQ q => optIsWildcard q.bin
    | _ => false
  | .timeUnit => match encQ with
    | .fieldQ q => optIsWildcard q.timeUnit
    | _ => false
  | .stack => match encQ with
    | .fieldQ q => optIsWildcard q.stack
    | _ => false
  | .autoCount => match encQ with
    | .autoCountQ q => isWildcard q.autoCount
    | _ => false
  | .scale => match encQ with
    | .fieldQ q => optIsWildcard q.scale
    | _ => false

/-- `isWildcard(encQ[parent][child])`.  In the source, indexing a falsy, a
boolean, or a wildcard parent value yields `undefined`, which is not a
Wildcard Value; `scale` is the only object-valued parent property of the
translated rule set, with children `zero` and `type`. -/
def encNestedChildIsWildcard (encQ : EncodingQuery) (parent : FlatProp) (child : String) : Bool :=
  match encQ, parent with
  | .fieldQ q, .scale =>
    match q.scale with
    | some (.concrete sq) =>
      if child == "zero" then optIsWildcard sq.zero
      else if child == "type" then optIsWildcard sq.scaleType
      else false
    | _ => false
  | _, _ => false

/-- Modelled from the spec: the Specification Query Model wraps a
Specification Query; its wildcard index is derived — it records exactly the
(encoding position, property) pairs currently holding a Wildcard Value, and
the mark when wildcarded (§3), so it never lags behind the query. -/
structure SpecQueryModel where
  specQuery : SpecQuery
deriving DecidableEq, Repr

/-- Modelled from the spec: `getMark()`. -/
def SpecQueryModel.getMark (specM : SpecQueryModel) : WildcardProperty Mark :=
  specM.specQuery.mark

/-- Modelled from the spec: `getEncodings()` — the usable encodings:
auto-count mappings explicitly disabled are filtered out. -/
def SpecQueryModel.getEncodings (specM : SpecQueryModel) : List EncodingQuery :=
  specM.specQuery.encodings.filter fun e => !isDisabledAutoCountQuery e

/-- Modelled from the spec: `channelUsed(channel)` — some usable encoding
binds that exact channel (wildcarded channels do not count as used). -/
def SpecQueryModel.channelUsed (specM : SpecQueryModel) (ch : Channel) : Bool :=
  specM.getEncodings.any fun e => e.channel == .concrete ch

/-- Modelled from the spec: `getEncodingQueryByChannel(channel)`. -/
def SpecQueryModel.getEncodingQueryByChannel (specM : SpecQueryModel) (ch : Channel) :
    Option EncodingQuery :=
  specM.getEncodings.find? fun e => e.channel == .concrete ch

/-- Modelled from the spec: `getEncodingQueryByIndex(i)` — a lookup into the
raw, unfiltered encodings list (index-sensitive rules rely on this). -/
def SpecQueryModel.getEncodingQueryByIndex (specM : SpecQueryModel) (i : Nat) :
    Option EncodingQuery :=
  specM.specQuery.encodings.get? i

/-- Does this encoding currently hold a Wildcard Value at the given
property (the derived wildcard-index entry for one encoding)? -/
def encHasWildcardProp (e : EncodingQuery) (p : Property) : Bool :=
  match p with
  | .flat .mark => false
  | .flat fp => encPropIsWildcard e fp
  | .nested parent child => encPropTruthy e parent && encNestedChildIsWildcard e parent child

/-- Modelled from the spec: `wildcardIndex.hasEncodingProperty(i, prop)` —
the raw encoding at position `i` currently holds a Wildcard Value at
`prop`. -/
def SpecQueryModel.wildcardIndexHasEncodingProperty
    (specM : SpecQueryModel) (i : Nat) (p : Property) : Bool :=
  match specM.specQuery.encodings.get? i with
  | some e => encHasWildcardProp e p
  | none => false

/-- Modelled from the spec: `wildcardIndex.hasProperty(prop)` — the property
is currently wildcarded anywhere in the model (the mark for the mark
property, some raw encoding otherwise). -/
def SpecQueryModel.wildcardIndexHasProperty (specM : SpecQueryModel) (p : Property) : Bool :=
  match p with
  | .flat .mark => isWildcard specM.getMark
  | _ => specM.specQuery.encodings.any fun e => encHasWildcardProp e p

/-- Modelled from the spec: `wildcardIndex.encodingIndicesByProperty.get(prop)`
— the raw positions whose encoding currently holds a Wildcard Value at
`prop`. -/
def SpecQueryModel.encodingIndicesByProperty (specM : SpecQueryModel) (p : Property) : List Nat :=
  (List.range specM.specQuery.encodings.length).filter fun i =>
    specM.wildcardIndexHasEncodingProperty i p

/-- Alias for the query-level `isAggregate` (so the model method below can
refer to it unambiguously). -/
def isAggregateQuery : SpecQuery → Bool := isAggregate

/-- Modelled from the spec: the model's `isAggregate()` delegates to the
query-level `isAggregate`. -/
def SpecQueryModel.isAggregate (specM : SpecQueryModel) : Bool :=
  isAggregateQuery specM.specQuery

/-- Modelled from the spec: a dimension is a discrete grouping field — a
field-backed encoding of nominal/ordinal/key type, or binned, or carrying a
time unit. -/
def isDimension : EncodingQuery → Bool
  | .fieldQ q =>
    q.type == some (.concrete .nominal) || q.type == some (.concrete .ordinal) ||
    q.type == some (.concrete .key) ||
    optConcBoolTruthy q.bin || optConcTruthy q.timeUnit
  | _ => false

/-- Modelled from the spec: a measure is a continuous/aggregatable field — a
field-backed encoding that is not a dimension and not temporal, or an
enabled auto count. -/
def isMeasure : EncodingQuery → Bool
  | .fieldQ q =>
    !(isDimension (.fieldQ q)) && q.type != some (.concrete .temporal)
  | .autoCountQ q => q.autoCount == .concrete true
  | .valueQ _ => false

/-- `isMeasure` applied to an optional lookup result (an absent encoding is
not a measure). -/
def isMeasureO : Option EncodingQuery → Bool
  | some e => isMeasure e
  | none => false

/-- `isDimension` applied to an optional lookup result. -/
def isDimensionO : Option EncodingQuery → Bool
  | some e => isDimension e
  | none => false

/-- `isFieldQuery` applied to an optional lookup result. -/
def isFieldQueryO : Option EncodingQuery → Bool
  | some e => isFieldQuery e
  | none => false

/-- Modelled from the spec: the default scale type per measurement type
(a log scale is never a default). -/
def defaultScaleTy : Option (WildcardProperty MType) → ScaleTy
  | some (.concrete .temporal) => .time
  | some (.concrete .nominal) => .point
  | some (.concrete .ordinal) => .point
  | some (.concrete .key) => .point
  | _ => .linear

/-- Modelled from the spec: `scaleType(encQ)` — the concrete nested
`scale.type` when given, else the default for the encoding's type. -/
def scaleTypeF (q : FieldQ) : ScaleTy :=
  match q.scale with
  | some (.concrete sq) =>
    match sq.scaleType with
    | some (.concrete t) => t
    | _ => defaultScaleTy q.type
  | _ => defaultScaleTy q.type

/-- `scaleType` for any encoding-query variant (an auto count is a plain
quantitative count on a linear scale). -/
def scaleTypeE : EncodingQuery → ScaleTy
  | .fieldQ q => scaleTypeF q
  | _ => .linear

/-- The effective stacking configuration's shape: the stacked measure axis. -/
structure StackProps where
  fieldChannel : Channel
deriving DecidableEq, Repr

/-- Modelled from the spec: `stack()` — the effective stacking configuration
(§4.2, glossary): non-null only for a stackable mark (bar/area) on an
aggregate plot with exactly one aggregated positional axis; `fieldChannel`
is that measure axis. -/
def SpecQueryModel.stack (specM : SpecQueryModel) : Option StackProps :=
  if !(specM.getMark == .concrete .bar || specM.getMark == .concrete .area) then none
  else if !(specM.isAggregate) then none
  else
    let axisAgg : Channel → Bool := fun ch =>
      match specM.getEncodingQueryByChannel ch with
      | some (.fieldQ q) => optTruthy q.aggregate
      | some (.autoCountQ q) => q.autoCount == .concrete true
      | _ => false
    let xAgg := axisAgg .x
    let yAgg := axisAgg .y
    if xAgg != yAgg then some ⟨if xAgg then .x else .y⟩ else none

/-- Modelled from the spec: per-field metadata consulted by some rules; the
translated rule set never reads it, so it carries no information. -/
def Schema := Unit

/-- Modelled from the spec: the options map — rule-name activation flags
plus the global flags referenced directly by a few rules. -/
structure QueryConfig where
  enabled : String → Bool := fun _ => false
  constraintManuallySpecifiedValue : Bool := false
  autoAddCount : Bool := false
  verbose : Bool := false

/-- A constraint of the spec-constraint catalogue (`src/constraint/spec.ts`):
name, description, declared properties, the wildcard-tolerance and
strictness flags, and the predicate.  A predicate returns
`Except String Bool`: `.error` models a thrown `Error` (the source's
exhaustive-switch aborts), `.ok` a normal boolean result. -/
structure SpecConstraint where
  name : String
  description : String
  properties : List Property
  allowWildcardForProperties : Bool
  strict : Bool
  satisfy : SpecQueryModel → Schema → QueryConfig → Except String Bool

/-- JavaScript `every` over a list with a possibly-throwing body: stops at
the first `false` (result `false`) and propagates a thrown error. -/
def allE {α : Type} : List α → (α → Except String Bool) → Except String Bool
  | [], _ => .ok true
  | a :: rest, f =>
    match f a with
    | .error e => .error e
    | .ok false => .ok false
    | .ok true => allE rest f

/-- `SpecConstraintModel.hasAllRequiredPropertiesSpecific` (src/constraint/
spec.ts lines 35-67): every declared property is non-wildcard wherever it
applies — the mark for the mark property; for a nested property, every
usable encoding whose parent value is truthy has a non-wildcard child; for a
flat encoding property, every usable encoding whose value is truthy has a
non-wildcard value (a falsy/absent value passes). -/
def hasAllRequiredPropertiesSpecific (c : SpecConstraint) (specM : SpecQueryModel) : Bool :=
  c.properties.all fun prop =>
    match prop with
    | .flat .mark => !(isWildcard specM.getMark)
    | .nested parent child =>
      specM.getEncodings.all fun encQ =>
        if !(encPropTruthy encQ parent) then true
        else !(encNestedChildIsWildcard encQ parent child)
    | .flat p =>
      specM.getEncodings.all fun encQ =>
        if !(encPropTruthy encQ p) then true
        else !(encPropIsWildcard encQ p)

/-- `SpecConstraintModel.satisfy` (src/constraint/spec.ts lines 69-78): a
non-wildcard-tolerant constraint whose declared properties are not all
concrete is treated as satisfied without invoking the predicate. -/
def modelSatisfy (c : SpecConstraint) (specM : SpecQueryModel) (schema : Schema)
    (opt : QueryConfig) : Except String Bool :=
  if !c.allowWildcardForProperties && !(hasAllRequiredPropertiesSpecific c specM) then
    .ok true
  else
    c.satisfy specM schema opt

/-- The loop of the `noRepeatedChannel` predicate, carrying the
`usedChannel` set. -/
def noRepeatedChannelLoop : List Channel → List EncodingQuery → Bool
  | _, [] => true
  | used, e :: rest =>
    match e.channel with
    | .concrete ch =>
      if used.contains ch then false
      else noRepeatedChannelLoop (ch :: used) rest
    | .wildcard => noRepeatedChannelLoop used rest

/-- `noRepeatedChannel` (src/constraint/spec.ts lines 87-109). -/
def noRepeatedChannel : SpecConstraint where
  name := "noRepeatedChannel"
  description := "Each encoding channel should only be used once."
  properties := [.flat .channel]
  allowWildcardForProperties := true
  strict := true
  satisfy := fun specM _ _ => .ok (noRepeatedChannelLoop [] specM.getEncodings)

/-- `alwaysIncludeZeroInScaleWithBarMark` (src/constraint/spec.ts lines
110-134). -/
def alwaysIncludeZeroInScaleWithBarMark : SpecConstraint where
  name := "alwaysIncludeZeroInScaleWithBarMark"
  description := "Do not recommend bar mark if scale does not start at zero"
  properties := [.flat .mark, .flat .scale, getEncodingNestedProp .scale "zero",
                 .flat .channel, .flat .type]
  allowWildcardForProperties := false
  strict := true
  satisfy := fun specM _ _ => .ok <|
    if specM.getMark == .concrete .bar then
      !(specM.getEncodings.any fun encQ =>
        match encQ with
        | .fieldQ q =>
          (q.channel == .concrete .x || q.channel == .concrete .y) &&
          q.type == some (.concrete .quantitative) &&
          (match q.scale with
           | some (.concrete sq) => sq.zero == some (.concrete false)
           | _ => false)
        | _ => false)
    else true

/-- The `autoAddCount` predicate (src/constraint/spec.ts lines 141-198); the
default case of its type switch throws `Unsupported Type`. -/
def autoAddCountSatisfy (specM : SpecQueryModel) : Except String Bool :=
  let hasAutoCount := specM.getEncodings.any isEnabledAutoCountQuery
  if hasAutoCount then
    allE specM.getEncodings fun encQ =>
      match encQ with
      | .valueQ _ => .ok false
      | .autoCountQ _ => .ok true
      | .fieldQ q =>
        match q.type with
        | some (.concrete .quantitative) => .ok (optBoolTruthy q.bin)
        | some (.concrete .temporal) => .ok (optTruthy q.timeUnit)
        | some (.concrete .ordinal) => .ok true
        | some (.concrete .key) => .ok true
        | some (.concrete .nominal) => .ok true
        | _ => .error "Unsupported Type"
  else
    let autoCountEncIndex := specM.encodingIndicesByProperty (.flat .autoCount)
    let neverHaveAutoCount := autoCountEncIndex.all fun i =>
      match specM.getEncodingQueryByIndex i with
      | some e =>
        isAutoCountQuery e &&
        !(match e with | .autoCountQ q => isWildcard q.autoCount | _ => false)
      | none => false
    if neverHaveAutoCount then
      .ok <| specM.getEncodings.any fun encQ =>
        match encQ with
        | .fieldQ q =>
          if q.type == some (.concrete .quantitative) then
            !(optBoolTruthy q.bin) || optIsWildcard q.bin
          else if q.type == some (.concrete .temporal) then
            !(optTruthy q.timeUnit) || optIsWildcard q.timeUnit
          else false
        | .autoCountQ _ =>
          -- `(isFieldQuery || isAutoCountQuery) && type === QUANTITATIVE`:
          -- a disabled auto count returns false, any other auto count falls
          -- into the `isFieldQuery && ...` conjunction, which is false.
          false
        | .valueQ _ => false
    else .ok true

/-- `autoAddCount` (src/constraint/spec.ts lines 135-199). -/
def autoAddCount : SpecConstraint where
  name := "autoAddCount"
  description := "Automatically adding count only for plots with only ordinal, binned quantitative, or temporal with timeunit fields."
  properties := [.flat .bin, .flat .timeUnit, .flat .type, .flat .autoCount]
  allowWildcardForProperties := true
  strict := false
  satisfy := fun specM _ _ => autoAddCountSatisfy specM

/-- Modelled from the spec: the external library's channel/mark support
table — the `text` channel is supported only by the text mark, the `shape`
channel only by the point mark, every other channel by every mark. -/
def supportMark (ch : Channel) (m : Mark) : Bool :=
  match ch with
  | .text => m == .text
  | .shape => m == .point
  | _ => true

/-- `channelPermittedByMarkType` (src/constraint/spec.ts lines 200-220). -/
def channelPermittedByMarkType : SpecConstraint where
  name := "channelPermittedByMarkType"
  description := "Each encoding channel should be supported by the mark type"
  properties := [.flat .channel, .flat .mark]
  allowWildcardForProperties := true
  strict := true
  satisfy := fun specM _ _ => .ok <|
    match specM.getMark with
    | .wildcard => true
    | .concrete m =>
      specM.getEncodings.all fun encQ =>
        match encQ.channel with
        | .wildcard => true
        | .concrete ch => supportMark ch m

/-- `JSON.stringify(mark)` for the error message of
`hasAllRequiredChannelsForMark` (a concrete mark is a quoted string; the
wildcard placeholder's serialization is modelled as its short form). -/
def jsonStringifyMark : WildcardProperty Mark → String
  | .concrete m => "\"" ++ markName m ++ "\""
  | .wildcard => "\"?\""

/-- The `hasAllRequiredChannelsForMark` predicate (src/constraint/spec.ts
lines 227-250): an exhaustive mark switch; a mark outside it reaches the
trailing `throw`. -/
def hasAllRequiredChannelsForMarkSatisfy (specM : SpecQueryModel) : Except String Bool :=
  match specM.getMark with
  | .concrete .area => .ok (specM.channelUsed .x && specM.channelUsed .y)
  | .concrete .line => .ok (specM.channelUsed .x && specM.channelUsed .y)
  | .concrete .text => .ok (specM.channelUsed .text)
  | .concrete .bar => .ok (specM.channelUsed .x || specM.channelUsed .y)
  | .concrete .circle => .ok (specM.channelUsed .x || specM.channelUsed .y)
  | .concrete .square => .ok (specM.channelUsed .x || specM.channelUsed .y)
  | .concrete .tick => .ok (specM.channelUsed .x || specM.channelUsed .y)
  | .concrete .rule => .ok (specM.channelUsed .x || specM.channelUsed .y)
  | .concrete .rect => .ok (specM.channelUsed .x || specM.channelUsed .y)
  | .concrete .point =>
    -- This allows generating a point plot if channel was not a wildcard.
    .ok (!(specM.wildcardIndexHasProperty (.flat .channel)) ||
         specM.channelUsed .x || specM.channelUsed .y)
  | m => .error ("hasAllRequiredChannelsForMark not implemented for mark" ++ jsonStringifyMark m)

/-- `hasAllRequiredChannelsForMark` (src/constraint/spec.ts lines 221-251). -/
def hasAllRequiredChannelsForMark : SpecConstraint where
  name := "hasAllRequiredChannelsForMark"
  description := "All required channels for the specified mark should be specified"
  properties := [.flat .channel, .flat .mark]
  allowWildcardForProperties := false
  strict := true
  satisfy := fun specM _ _ => hasAllRequiredChannelsForMarkSatisfy specM

/-- `omitAggregate` (src/constraint/spec.ts lines 252-264). -/
def omitAggregate : SpecConstraint where
  name := "omitAggregate"
  description := "Omit aggregate plots."
  properties := [.flat .aggregate, .flat .autoCount]
  allowWildcardForProperties := true
  strict := false
  satisfy := fun specM _ _ => .ok (!(specM.isAggregate))

/-- `omitAggregatePlotWithDimensionOnlyOnFacet` (src/constraint/spec.ts
lines 265-297). -/
def omitAggregatePlotWithDimensionOnlyOnFacet : SpecConstraint where
  name := "omitAggregatePlotWithDimensionOnlyOnFacet"
  description := "Omit aggregate plots with dimensions only on facets as that leads to inefficient use of space."
  properties := [.flat .channel, .flat .aggregate, .flat .autoCount]
  allowWildcardForProperties := false
  strict := false
  satisfy := fun specM _ opt => .ok <|
    if specM.isAggregate then
      let flags := specM.specQuery.encodings.enum.foldl
        (fun (acc : Bool × Bool × Bool) (ie : Nat × EncodingQuery) =>
          let (hasNonFacetDim, _hasDim, hasEnumeratedFacetDim) := acc
          let (index, encQ) := ie
          if isValueQuery encQ || isDisabledAutoCountQuery encQ then acc
          else
            match encQ with
            | .fieldQ q =>
              if !(optTruthy q.aggregate) then
                -- isDimension
                if q.channel == .concrete .row || q.channel == .concrete .column then
                  if specM.wildcardIndexHasEncodingProperty index (.flat .channel) then
                    (hasNonFacetDim, true, true)
                  else (hasNonFacetDim, true, hasEnumeratedFacetDim)
                else (true, true, hasEnumeratedFacetDim)
              else acc
            | _ => acc)
        (false, false, false)
      let (hasNonFacetDim, hasDim, hasEnumeratedFacetDim) := flags
      if hasDim && !hasNonFacetDim then
        if hasEnumeratedFacetDim || opt.constraintManuallySpecifiedValue then false
        else true
      else true
    else true

/-- `omitAggregatePlotWithoutDimension` (src/constraint/spec.ts lines
298-316). -/
def omitAggregatePlotWithoutDimension : SpecConstraint where
  name := "omitAggregatePlotWithoutDimension"
  description := "Aggregate plots without dimension should be omitted"
  properties := [.flat .aggregate, .flat .autoCount, .flat .bin, .flat .timeUnit, .flat .type]
  allowWildcardForProperties := false
  strict := false
  satisfy := fun specM _ _ => .ok <|
    if specM.isAggregate then
      specM.getEncodings.any fun encQ =>
        isDimension encQ ||
        (match encQ with
         | .fieldQ q => q.type == some (.concrete .temporal)
         | _ => false)
    else true

/-- `omitBarLineAreaWithOcclusion` (src/constraint/spec.ts lines 317-330). -/
def omitBarLineAreaWithOcclusion : SpecConstraint where
  name := "omitBarLineAreaWithOcclusion"
  description := "Don't use bar, line or area to visualize raw plot as they often lead to occlusion."
  properties := [.flat .mark, .flat .aggregate, .flat .autoCount]
  allowWildcardForProperties := false
  strict := false
  satisfy := fun specM _ _ => .ok <|
    match specM.getMark with
    | .concrete .bar => specM.isAggregate
    | .concrete .line => specM.isAggregate
    | .concrete .area => specM.isAggregate
    | _ => true

/-- `NONSPATIAL_CHANNELS` of the external library (the non-positional,
non-facet channels), as indexed by `NONSPATIAL_CHANNELS_INDEX`. -/
def NONSPATIAL_CHANNELS : List Channel := [.color, .opacity, .size, .shape, .text, .detail]

/-- The search loop of the `omitBarTickWithSize` predicate: the first
encoding bound to the `size` channel decides the result. -/
def omitBarTickWithSizeLoop (specM : SpecQueryModel) : List (Nat × EncodingQuery) → Bool
  | [] => true
  | (i, encQ) :: rest =>
    if encQ.channel == .concrete .size then
      if specM.wildcardIndexHasEncodingProperty i (.flat .channel) then false
      else true
    else omitBarTickWithSizeLoop specM rest

/-- `omitBarTickWithSize` (src/constraint/spec.ts lines 331-365). -/
def omitBarTickWithSize : SpecConstraint where
  name := "omitBarTickWithSize"
  description := "Do not map field to size channel with bar and tick mark"
  properties := [.flat .channel, .flat .mark]
  allowWildcardForProperties := true
  strict := false
  satisfy := fun specM _ opt => .ok <|
    let mark := specM.getMark
    if mark == .concrete .tick || mark == .concrete .bar then
      if specM.channelUsed .size then
        if opt.constraintManuallySpecifiedValue then false
        else omitBarTickWithSizeLoop specM specM.specQuery.encodings.enum
      else true
    else true

/-- `omitBarAreaForLogScale` (src/constraint/spec.ts lines 366-391). -/
def omitBarAreaForLogScale : SpecConstraint where
  name := "omitBarAreaForLogScale"
  description := "Do not use bar and area mark for x and y's log scale"
  properties := [.flat .mark, .flat .channel, .flat .scale,
                 getEncodingNestedProp .scale "type", .flat .type]
  allowWildcardForProperties := false
  strict := true
  satisfy := fun specM _ _ => .ok <|
    let mark := specM.getMark
    if mark == .concrete .area || mark == .concrete .bar then
      !(specM.getEncodings.any fun encQ =>
        match encQ with
        | .fieldQ q =>
          (q.channel == .concrete .x || q.channel == .concrete .y) &&
          optTruthy q.scale && scaleTypeF q == .log
        | _ => false)
    else true

/-- The loop of the `omitMultipleNonPositionalChannels` predicate, carrying
the running count and enumeration flag. -/
def omitMultipleNonPositionalLoop (specM : SpecQueryModel) (opt : QueryConfig) :
    Nat → Bool → List (Nat × EncodingQuery) → Bool
  | _, _, [] => true
  | count, hasEnum, (i, encQ) :: rest =>
    if isValueQuery encQ || isDisabledAutoCountQuery encQ then
      omitMultipleNonPositionalLoop specM opt count hasEnum rest
    else
      match encQ.channel with
      | .wildcard => omitMultipleNonPositionalLoop specM opt count hasEnum rest
      | .concrete ch =>
        if NONSPATIAL_CHANNELS.contains ch then
          let count := count + 1
          let hasEnum := hasEnum ||
            specM.wildcardIndexHasEncodingProperty i (.flat .channel)
          if count > 1 && (hasEnum || opt.constraintManuallySpecifiedValue) then false
          else omitMultipleNonPositionalLoop specM opt count hasEnum rest
        else omitMultipleNonPositionalLoop specM opt count hasEnum rest

/-- `omitMultipleNonPositionalChannels` (src/constraint/spec.ts lines
392-429); it iterates the raw encodings list to keep indices stable. -/
def omitMultipleNonPositionalChannels : SpecConstraint where
  name := "omitMultipleNonPositionalChannels"
  description := "Unless manually specified, do not use multiple non-positional encoding channel to avoid over-encoding."
  properties := [.flat .channel]
  allowWildcardForProperties := true
  strict := false
  satisfy := fun specM _ opt =>
    .ok (omitMultipleNonPositionalLoop specM opt 0 false specM.specQuery.encodings.enum)

/-- `omitNonPositionalOrFacetOverPositionalChannels` (src/constraint/spec.ts
lines 430-468). -/
def omitNonPositionalOrFacetOverPositionalChannels : SpecConstraint where
  name := "omitNonPositionalOrFacetOverPositionalChannels"
  description := "Do not use non-positional channels unless all positional channels are used"
  properties := [.flat .channel]
  allowWildcardForProperties := false
  strict := false
  satisfy := fun specM _ opt => .ok <|
    let flags := specM.specQuery.encodings.enum.foldl
      (fun (acc : Bool × Bool × Bool × Bool) (ie : Nat × EncodingQuery) =>
        let (hasNonPositionalChannelOrFacet, hasEnumeratedNonPositionOrFacetChannel,
             hasX, hasY) := acc
        let (i, encQ) := ie
        if isValueQuery encQ || isDisabledAutoCountQuery encQ then acc
        else if encQ.channel == .concrete .x then
          (hasNonPositionalChannelOrFacet, hasEnumeratedNonPositionOrFacetChannel, true, hasY)
        else if encQ.channel == .concrete .y then
          (hasNonPositionalChannelOrFacet, hasEnumeratedNonPositionOrFacetChannel, hasX, true)
        else
          match encQ.channel with
          | .wildcard => acc
          | .concrete _ =>
            if specM.wildcardIndexHasEncodingProperty i (.flat .channel) then
              (true, true, hasX, hasY)
            else (true, hasEnumeratedNonPositionOrFacetChannel, hasX, hasY))
      (false, false, false, false)
    let (hasNonPositionalChannelOrFacet, hasEnumeratedNonPositionOrFacetChannel,
         hasX, hasY) := flags
    if hasEnumeratedNonPositionOrFacetChannel ||
       (opt.constraintManuallySpecifiedValue && hasNonPositionalChannelOrFacet) then
      hasX && hasY
    else true

/-- `omitRaw` (src/constraint/spec.ts lines 469-481). -/
def omitRaw : SpecConstraint where
  name := "omitRaw"
  description := "Omit raw plots."
  properties := [.flat .aggregate, .flat .autoCount]
  allowWildcardForProperties := false
  strict := false
  satisfy := fun specM _ _ => .ok (specM.isAggregate)

/-- The loop of the `omitRawContinuousFieldForAggregatePlot` predicate. -/
def omitRawContinuousLoop (specM : SpecQueryModel) (opt : QueryConfig) :
    List (Nat × EncodingQuery) → Bool
  | [] => true
  | (i, encQ) :: rest =>
    if isValueQuery encQ || isDisabledAutoCountQuery encQ then
      omitRawContinuousLoop specM opt rest
    else
      let badTemporal : Bool :=
        match encQ with
        | .fieldQ q =>
          q.type == some (.concrete .temporal) && !(optTruthy q.timeUnit) &&
          (specM.wildcardIndexHasEncodingProperty i (.flat .timeUnit) ||
           opt.constraintManuallySpecifiedValue)
        | _ => false
      if badTemporal then false
      else
        let badQuantitative : Bool :=
          (match encQ with
           | .fieldQ q => q.type == some (.concrete .quantitative)
           | .autoCountQ q => q.type == some (.concrete .quantitative)
           | .valueQ _ => false) &&
          (match encQ with
           | .fieldQ q =>
             !(optBoolTruthy q.bin) && !(optTruthy q.aggregate) &&
             (specM.wildcardIndexHasEncodingProperty i (.flat .bin) ||
              specM.wildcardIndexHasEncodingProperty i (.flat .aggregate) ||
              specM.wildcardIndexHasEncodingProperty i (.flat .autoCount) ||
              opt.constraintManuallySpecifiedValue)
           | _ => false)
        if badQuantitative then false
        else omitRawContinuousLoop specM opt rest

/-- `omitRawContinuousFieldForAggregatePlot` (src/constraint/spec.ts lines
482-527). -/
def omitRawContinuousFieldForAggregatePlot : SpecConstraint where
  name := "omitRawContinuousFieldForAggregatePlot"
  description := "Aggregate plot should not use raw continuous field as group by values. (Quantitative should be binned. Temporal should have time unit.)"
  properties := [.flat .aggregate, .flat .autoCount, .flat .timeUnit, .flat .bin, .flat .type]
  allowWildcardForProperties := true
  strict := false
  satisfy := fun specM _ opt => .ok <|
    if specM.isAggregate then
      omitRawContinuousLoop specM opt specM.specQuery.encodings.enum
    else true

/-- `omitRawDetail` (src/constraint/spec.ts lines 528-552). -/
def omitRawDetail : SpecConstraint where
  name := "omitRawDetail"
  description := "Do not use detail channel with raw plot."
  properties := [.flat .channel, .flat .aggregate, .flat .autoCount]
  allowWildcardForProperties := false
  strict := true
  satisfy := fun specM _ opt => .ok <|
    if specM.isAggregate then true
    else
      specM.specQuery.encodings.enum.all fun ie =>
        let (index, encQ) := ie
        if isValueQuery encQ || isDisabledAutoCountQuery encQ then true
        else if encQ.channel == .concrete .detail then
          !(specM.wildcardIndexHasEncodingProperty index (.flat .channel) ||
            opt.constraintManuallySpecifiedValue)
        else true

/-- The loop of the `omitRepeatedField` predicate, carrying the `fieldUsed`
and `fieldEnumerated` sets.  (The source also has an `isAutoCountQuery`
branch assigning the `count_*` pseudo-field, but it sits after a `continue`
that already skipped every auto-count encoding, so it is dead code.) -/
def omitRepeatedFieldLoop (specM : SpecQueryModel) (opt : QueryConfig) :
    List String → List String → List (Nat × EncodingQuery) → Bool
  | _, _, [] => true
  | fieldUsed, fieldEnumerated, (i, encQ) :: rest =>
    match encQ with
    | .valueQ _ => omitRepeatedFieldLoop specM opt fieldUsed fieldEnumerated rest
    | .autoCountQ _ => omitRepeatedFieldLoop specM opt fieldUsed fieldEnumerated rest
    | .fieldQ q =>
      match q.field with
      | some (.concrete f) =>
        if f == "" then omitRepeatedFieldLoop specM opt fieldUsed fieldEnumerated rest
        else
          let fieldEnumerated :=
            if specM.wildcardIndexHasEncodingProperty i (.flat .field) then
              f :: fieldEnumerated
            else fieldEnumerated
          if fieldUsed.contains f &&
             (fieldEnumerated.contains f || opt.constraintManuallySpecifiedValue) then
            false
          else omitRepeatedFieldLoop specM opt (f :: fieldUsed) fieldEnumerated rest
      | _ => omitRepeatedFieldLoop specM opt fieldUsed fieldEnumerated rest

/-- `omitRepeatedField` (src/constraint/spec.ts lines 553-597). -/
def omitRepeatedField : SpecConstraint where
  name := "omitRepeatedField"
  description := "Each field should be mapped to only one channel"
  properties := [.flat .field]
  allowWildcardForProperties := true
  strict := false
  satisfy := fun specM _ opt =>
    .ok (omitRepeatedFieldLoop specM opt [] [] specM.specQuery.encodings.enum)

/-- `omitVerticalDotPlot` (src/constraint/spec.ts lines 599-612). -/
def omitVerticalDotPlot : SpecConstraint where
  name := "omitVerticalDotPlot"
  description := "Do not output vertical dot plot."
  properties := [.flat .channel]
  allowWildcardForProperties := true
  strict := false
  satisfy := fun specM _ _ => .ok <|
    match specM.getEncodings with
    | [e] => !(e.channel == .concrete .y)
    | _ => true

/-- The string the source appends to the error message of
`hasAppropriateGraphicTypeForMark` (`'... for mark' + mark`): a concrete
mark concatenates as its plain name, the wildcard placeholder object as
JavaScript's default object string. -/
def markPlusString : WildcardProperty Mark → String
  | .concrete m => markName m
  | .wildcard => "[object Object]"

/-- The `hasAppropriateGraphicTypeForMark` predicate (src/constraint/spec.ts
lines 620-692): an exhaustive mark switch; a mark outside it reaches the
trailing `throw` (whose message names `hasAllRequiredChannelsForMark`, as in
the source). -/
def hasAppropriateGraphicTypeForMarkSatisfy (specM : SpecQueryModel) : Except String Bool :=
  match specM.getMark with
  | .concrete .area | .concrete .line =>
    .ok <|
      if specM.isAggregate then
        let xEncQ := specM.getEncodingQueryByChannel .x
        let yEncQ := specM.getEncodingQueryByChannel .y
        let xIsMeasure := isMeasureO xEncQ
        let yIsMeasure := isMeasureO yEncQ
        -- for aggregate line / area, we need at least one group-by axis and
        -- one measure axis, and the dimension axis should not be nominal/key.
        xEncQ.isSome && yEncQ.isSome && (xIsMeasure != yIsMeasure) &&
        !(match xEncQ with
          | some (.fieldQ q) =>
            !xIsMeasure && (q.type == some (.concrete .nominal) ||
                            q.type == some (.concrete .key))
          | _ => false) &&
        !(match yEncQ with
          | some (.fieldQ q) =>
            !yIsMeasure && (q.type == some (.concrete .nominal) ||
                            q.type == some (.concrete .key))
          | _ => false)
      else true
  | .concrete .text => .ok true
  | .concrete .bar | .concrete .tick =>
    .ok <|
      if specM.channelUsed .size then false
      else
        -- Tick and Bar should have one and only one measure.
        let xIsMeasure := isMeasureO (specM.getEncodingQueryByChannel .x)
        let yIsMeasure := isMeasureO (specM.getEncodingQueryByChannel .y)
        if xIsMeasure != yIsMeasure then true else false
  | .concrete .rect =>
    .ok <|
      let xEncQ := specM.getEncodingQueryByChannel .x
      let yEncQ := specM.getEncodingQueryByChannel .y
      let xIsDimension := isDimensionO xEncQ
      let yIsDimension := isDimensionO yEncQ
      let colorEncQ := specM.getEncodingQueryByChannel .color
      let colorIsQuantitative := isMeasureO colorEncQ
      let colorIsOrdinal : Bool :=
        match colorEncQ with
        | some (.fieldQ q) => q.type == some (.concrete .ordinal)
        | _ => false
      let correctChannels :=
        (xIsDimension && yIsDimension) ||
        (xIsDimension && !(specM.channelUsed .y)) ||
        (yIsDimension && !(specM.channelUsed .x))
      let correctColor := colorEncQ.isNone ||
        (colorEncQ.isSome && (colorIsQuantitative || colorIsOrdinal))
      correctChannels && correctColor
  | .concrete .circle | .concrete .point | .concrete .square | .concrete .rule => .ok true
  | m => .error ("hasAllRequiredChannelsForMark not implemented for mark" ++ markPlusString m)

/-- `hasAppropriateGraphicTypeForMark` (src/constraint/spec.ts lines
614-693). -/
def hasAppropriateGraphicTypeForMark : SpecConstraint where
  name := "hasAppropriateGraphicTypeForMark"
  description := "Has appropriate graphic type for mark"
  properties := [.flat .channel, .flat .mark, .flat .type, .flat .timeUnit,
                 .flat .bin, .flat .aggregate, .flat .autoCount]
  allowWildcardForProperties := false
  strict := false
  satisfy := fun specM _ _ => hasAppropriateGraphicTypeForMarkSatisfy specM

/-- `omitNonLinearScaleTypeWithStack` (src/constraint/spec.ts lines
694-717). -/
def omitNonLinearScaleTypeWithStack : SpecConstraint where
  name := "omitNonLinearScaleTypeWithStack"
  description := "Stacked plot should only use linear scale"
  properties := [.flat .channel, .flat .mark, .flat .aggregate, .flat .autoCount,
                 .flat .scale, getEncodingNestedProp .scale "type", .flat .type]
  allowWildcardForProperties := false
  strict := true
  satisfy := fun specM _ _ => .ok <|
    match specM.stack with
    | some _ =>
      specM.getEncodings.all fun encQ =>
        match encQ with
        | .valueQ _ => true
        | .fieldQ q =>
          if optTruthy q.aggregate && q.type == some (.concrete .quantitative) &&
             (q.channel == .concrete .x || q.channel == .concrete .y) then
            scaleTypeE (.fieldQ q) == .linear
          else true
        | .autoCountQ q =>
          if isEnabledAutoCountQuery (.autoCountQ q) &&
             q.type == some (.concrete .quantitative) &&
             (q.channel == .concrete .x || q.channel == .concrete .y) then
            scaleTypeE (.autoCountQ q) == .linear
          else true
    | none => true

/-- `omitNonSumStack` (src/constraint/spec.ts lines 718-732). -/
def omitNonSumStack : SpecConstraint where
  name := "omitNonSumStack"
  description := "Stacked plot should use summative aggregation such as sum, count, or distinct"
  properties := [.flat .channel, .flat .mark, .flat .aggregate, .flat .autoCount]
  allowWildcardForProperties := false
  strict := false
  satisfy := fun specM _ _ => .ok <|
    match specM.stack with
    | some st =>
      match specM.getEncodingQueryByChannel st.fieldChannel with
      | some (.fieldQ q) =>
        (match q.aggregate with
         | some (.concrete op) => SUM_OPS.contains op
         | _ => false)
      | some (.autoCountQ q) => !(q.autoCount == .concrete false)
      | _ => false
    | none => true

/-- `omitTableWithOcclusionIfAutoAddCount` (src/constraint/spec.ts lines
733-766). -/
def omitTableWithOcclusionIfAutoAddCount : SpecConstraint where
  name := "omitTableWithOcclusionIfAutoAddCount"
  description := "Plots without aggregation or autocount where x and y are both discrete should be omitted if autoAddCount is enabled as they often lead to occlusion"
  properties := [.flat .channel, .flat .type, .flat .timeUnit, .flat .bin,
                 .flat .aggregate, .flat .autoCount]
  allowWildcardForProperties := false
  strict := false
  satisfy := fun specM _ opt => .ok <|
    if opt.autoAddCount then
      let xEncQ := specM.getEncodingQueryByChannel .x
      let yEncQ := specM.getEncodingQueryByChannel .y
      if (!(isFieldQueryO xEncQ) || isDimensionO xEncQ) &&
         (!(isFieldQueryO yEncQ) || isDimensionO yEncQ) then
        if !(specM.isAggregate) then false
        else
          specM.getEncodings.all fun encQ =>
            if !(encQ.channel == .concrete .x) && !(encQ.channel == .concrete .y) &&
               !(encQ.channel == .concrete .row) && !(encQ.channel == .concrete .column) then
              -- Non-position fields should not be unaggregated fields.
              match encQ with
              | .fieldQ q => optTruthy q.aggregate
              | _ => true
            else true
      else true
    else true

/-- `SPEC_CONSTRAINTS` (src/constraint/spec.ts lines 86-767), in the
source's registration order; the four constraints after
`omitVerticalDotPlot` are the expensive tier checked last. -/
def SPEC_CONSTRAINTS : List SpecConstraint :=
  [ noRepeatedChannel
  , alwaysIncludeZeroInScaleWithBarMark
  , autoAddCount
  , channelPermittedByMarkType
  , hasAllRequiredChannelsForMark
  , omitAggregate
  , omitAggregatePlotWithDimensionOnlyOnFacet
  , omitAggregatePlotWithoutDimension
  , omitBarLineAreaWithOcclusion
  , omitBarTickWithSize
  , omitBarAreaForLogScale
  , omitMultipleNonPositionalChannels
  , omitNonPositionalOrFacetOverPositionalChannels
  , omitRaw
  , omitRawContinuousFieldForAggregatePlot
  , omitRawDetail
  , omitRepeatedField
  , omitVerticalDotPlot
  , hasAppropriateGraphicTypeForMark
  , omitNonLinearScaleTypeWithStack
  , omitNonSumStack
  , omitTableWithOcclusionIfAutoAddCount ]

/-- The property index: an association list from canonical property key to
the ordered list of constraints indexed under it (the source's `PropIndex`
keyed by `toKey`). -/
def PropIdx := List (String × List SpecConstraint)

/-- `index.get(prop)` — the list under a key, if present. -/
def idxGet (idx : PropIdx) (k : String) : Option (List SpecConstraint) :=
  (List.find? (fun kv => kv.1 == k) idx).map (fun kv => kv.2)

/-- `index.get(prop) || []`. -/
def idxGetD (idx : PropIdx) (k : String) : List SpecConstraint :=
  (idxGet idx k).getD []

/-- `index.set(prop, index.get(prop) || []); index.get(prop).push(c)` — push
a constraint at the end of a key's list, creating the entry (at the end, in
insertion order) when absent. -/
def idxAdd (idx : PropIdx) (k : String) (c : SpecConstraint) : PropIdx :=
  match idx with
  | [] => [(k, [c])]
  | (k0, l) :: rest =>
    if k0 == k then (k0, l ++ [c]) :: rest
    else (k0, l) :: idxAdd rest k c

/-- Insert one constraint under every property key it declares. -/
def insertConstraint (idx : PropIdx) (c : SpecConstraint) : PropIdx :=
  c.properties.foldl (fun acc p => idxAdd acc (toKey p) c) idx

/-- `SPEC_CONSTRAINTS_BY_PROPERTY` (src/constraint/spec.ts lines 776-784):
the index built once by a fold over the catalogue. -/
def SPEC_CONSTRAINTS_BY_PROPERTY : PropIdx :=
  SPEC_CONSTRAINTS.foldl insertConstraint []

/-- The loop of `checkSpec` over the constraints indexed under a property:
strict constraints always run, non-strict ones only when the options map
holds a truthy entry under their name; the first active constraint whose
`satisfy` is false yields its prefixed name; a thrown error propagates. -/
def checkSpecList (cs : List SpecConstraint) (specM : SpecQueryModel) (schema : Schema)
    (opt : QueryConfig) : Except String (Option String) :=
  match cs with
  | [] => .ok none
  | c :: rest =>
    if c.strict || opt.enabled c.name then
      match modelSatisfy c specM schema opt with
      | .error e => .error e
      | .ok false => .ok (some ("(spec) " ++ c.name))
      | .ok true => checkSpecList rest specM schema opt
    else checkSpecList rest specM schema opt

/-- `checkSpec` (src/constraint/spec.ts lines 789-812).  The wildcard
argument is used by the source only for verbose diagnostic logging, which
has no observable result here. -/
def checkSpec (prop : Property) (_wildcardName : String) (specM : SpecQueryModel)
    (schema : Schema) (opt : QueryConfig) : Except String (Option String) :=
  checkSpecList (idxGetD SPEC_CONSTRAINTS_BY_PROPERTY (toKey prop)) specM schema opt

/-- A JavaScript value, as far as `fromSpec` and `hasWildcard`
(src/query/spec.ts) observe one: null, booleans, numbers, strings, objects
(ordered own key/value pairs) and arrays. -/
inductive JVal
  | null
  | bool (b : Bool)
  | num (n : Int)
  | str (s : String)
  | obj (fields : List (String × JVal))
  | arr (elems : List JVal)

/-- JavaScript truthiness of a value. -/
def truthyJ : JVal → Bool
  | .null => false
  | .bool b => b
  | .num n => n != 0
  | .str s => s != ""
  | .obj _ => true
  | .arr _ => true

/-- First-match lookup of an object's own property (`undefined` is `none`). -/
def jGet (fields : List (String × JVal)) (k : String) : Option JVal :=
  (List.find? (fun kv => kv.1 == k) fields).map (fun kv => kv.2)

/-- Truthiness of an optional lookup (`!!obj[k]`, `undefined` falsy). -/
def truthyO : Option JVal → Bool
  | some v => truthyJ v
  | none => false

/-- Modelled from the spec: `isWildcard` on a raw JavaScript value — the
short-form placeholder string `'?'`, or a non-array object carrying a
truthy `enum` (candidate enumeration) or `name` (logical name) property. -/
def isWildcardJ : JVal → Bool
  | .str s => s == "?"
  | .obj fields => truthyO (jGet fields "enum") || truthyO (jGet fields "name")
  | _ => false

/-- The own enumerable key/value pairs visited by a JavaScript `for..in`
loop (with `hasOwnProperty` filtering, as in the source): an object's
fields; a string's character indices (boxing — `length` is not
enumerable); an array's element indices; nothing for the primitives. -/
def childEntries : JVal → List (String × JVal)
  | .obj fields => fields
  | .str s => s.toList.enum.map fun ic => (toString ic.1, JVal.str (String.singleton ic.2))
  | .arr elems => elems.enum.map fun ie => (toString ie.1, ie.2)
  | _ => []

/-- Modelled from the spec: the canonical keys of the top-level per-encoding
properties (`isEncodingTopLevelProperty`), per §3's Encoding Mapping
property list. -/
def ENCODING_TOPLEVEL_PROPS : List String :=
  ["channel", "field", "type", "aggregate", "bin", "timeUnit", "scale",
   "axis", "legend", "sort", "stack", "autoCount", "value"]

/-- A Specification Query in raw JavaScript form, as scanned by
`hasWildcard`: the mark value plus one object per encoding. -/
structure SpecQueryJ where
  mark : JVal
  encodings : List (List (String × JVal))

/-- `hasWildcard` (src/query/spec.ts lines 208-241).  `exclude` is the
exclusion list already mapped through `toKey`.  The source returns `true` at
the first hit of, in order: a non-excluded wildcard mark; per encoding and
per top-level property key, a non-excluded wildcard value, then per child
key other than `enum`/`name`, a non-excluded wildcard child (child keys of
non-object values follow JavaScript `for..in` semantics — notably a string's
character indices). -/
def hasWildcard (specQ : SpecQueryJ) (exclude : List String) : Bool :=
  (isWildcardJ specQ.mark && !(exclude.contains "mark")) ||
  specQ.encodings.any fun encQ =>
    encQ.any fun kv =>
      ENCODING_TOPLEVEL_PROPS.contains kv.1 &&
      ((isWildcardJ kv.2 && !(exclude.contains kv.1)) ||
       (childEntries kv.2).any fun ckv =>
         !(["enum", "name"].contains ckv.1) &&
         isWildcardJ ckv.2 &&
         !(exclude.contains (kv.1 ++ "." ++ ckv.1)))

/-- `v === null` (strict equality with null). -/
def isNullJ : JVal → Bool
  | .null => true
  | _ => false

/-- The null-to-false normalization of `fromSpec`: bin, scale, axis and
legend only support boolean, not null, so an explicit null becomes `false`;
every other property value is copied verbatim. -/
def normalizeProp (k : String) (v : JVal) : JVal :=
  if (["bin", "scale", "axis", "legend"].contains k) && isNullJ v then .bool false
  else v

/-- JavaScript property assignment `obj[k] = v` on an association list:
replace the first binding of `k` in place, or append a fresh binding. -/
def jSet (fields : List (String × JVal)) (k : String) (v : JVal) : List (String × JVal) :=
  match fields with
  | [] => [(k, v)]
  | (k0, v0) :: rest =>
    if k0 == k then (k0, v) :: rest
    else (k0, v0) :: jSet rest k v

/-- Modelled from the spec: `isFieldQuery` on a raw encoding object — an
encoding that is neither an auto-count (no `autoCount` key) nor a literal
value (no `value` key), the variants being mutually exclusive. -/
def isFieldQueryJ (encQ : List (String × JVal)) : Bool :=
  (jGet encQ "autoCount").isNone && (jGet encQ "value").isNone

/-- `encQ.aggregate === 'count'` (strict string equality; a wildcard or any
non-string value is not `'count'`). -/
def aggregateIsCount (o : Option JVal) : Bool :=
  match o with
  | some (.str s) => s == "count"
  | _ => false

/-- The per-channel conversion of `fromSpec` (src/query/spec.ts lines
53-74): start from `{channel}`, copy every top-level encoding property in
key order (normalizing null to false for bin/scale/axis/legend), then
default a count aggregate with a falsy field to the sentinel field `*`. -/
def convertChannelDef (channel : String) (channelDef : List (String × JVal)) :
    List (String × JVal) :=
  let encQ : List (String × JVal) := [("channel", JVal.str channel)]
  let encQ := channelDef.foldl
    (fun acc kv =>
      if ENCODING_TOPLEVEL_PROPS.contains kv.1 then
        jSet acc kv.1 (normalizeProp kv.1 kv.2)
      else acc)
    encQ
  if isFieldQueryJ encQ && aggregateIsCount (jGet encQ "aggregate") &&
     !(truthyO (jGet encQ "field")) then
    jSet encQ "field" (JVal.str "*")
  else encQ

/-- The input of `fromSpec`: a chart-description document — optional
data/transform/config, a mark, and one channel-definition object per
channel (in key order). -/
structure VLUnitSpec where
  data : Option JVal := none
  transform : Option JVal := none
  mark : JVal
  encoding : List (String × List (String × JVal)) := []
  config : Option JVal := none

/-- The output of `fromSpec`: the flat specification query; `none` models an
absent top-level key. -/
structure SpecQueryTop where
  data : Option JVal := none
  transform : Option JVal := none
  mark : JVal
  encodings : List (List (String × JVal))
  config : Option JVal := none

/-- `fromSpec` (src/query/spec.ts lines 47-79).  The source spreads
`spec.data ? {data: spec.data} : {}` (and likewise transform/config), so a
top-level key is kept exactly when its value is truthy. -/
def fromSpec (sp : VLUnitSpec) : SpecQueryTop where
  data := match sp.data with
    | some v => if truthyJ v then some v else none
    | none => none
  transform := match sp.transform with
    | some v => if truthyJ v then some v else none
    | none => none
  mark := sp.mark
  encodings := sp.encoding.map fun p => convertChannelDef p.1 p.2
  config := match sp.config with
    | some v => if truthyJ v then some v else none
    | none => none

/-- The failing input for the implicit-stack claim: a bar-mark query whose
single encoding is `x: sum(Q)` — no encoding uses the `y` or `color`
channel. -/
def c1FailingSpec : SpecQuery :=
  ⟨.concrete .bar,
   [.fieldQ { channel := .concrete .x, field := some (.concrete "Q"),
              type := some (.concrete .quantitative),
              aggregate := some (.concrete .sum) }]⟩

/-- C1: the claim requires `isImplicitStack` to be true only when the
x-used, y-used and color-used conditions hold as independent facts, so a
query whose only encoding is an aggregated `x` field must yield `false`.
The translated source (with its switch fallthrough) yields `true` on that
query although no encoding uses `y` or `color`; the independent-conditions
algorithm of the spec (§4.2) yields `false` there. -/
theorem isImplicitStack_fallthrough_at_single_x_encoding :
    isImplicitStack c1FailingSpec = true ∧
    (c1FailingSpec.encodings.any fun e => e.channel == .concrete .y) = false ∧
    (c1FailingSpec.encodings.any fun e => e.channel == .concrete .color) = false ∧
    isImplicitStackSpec c1FailingSpec = false := by
  decide

/-- The encodings `{x: sum(Q), y: N, color: N1}` of the stack-detection
claim. -/
def c2Encodings : List EncodingQuery :=
  [ .fieldQ { channel := .concrete .x, field := some (.concrete "Q"),
              type := some (.concrete .quantitative),
              aggregate := some (.concrete .sum) }
  , .fieldQ { channel := .concrete .y, field := some (.concrete "N"),
              type := some (.concrete .nominal) }
  , .fieldQ { channel := .concrete .color, field := some (.concrete "N1"),
              type := some (.concrete .nominal) } ]

/-- C2 (counterexample): the claim says that for the encodings
`{x: sum(Q), y: N, color: N1}` with mark `point`, `isImplicitStack` is
`false` (a stackable-mark gate); on the translated source it is `true`. -/
theorem isImplicitStack_point_counterexample :
    isImplicitStack ⟨.concrete .point, c2Encodings⟩ = true := by
  decide

/-- C2 (amended): `isImplicitStack` never consults the mark — its result is
invariant under changing the mark — and for the encodings
`{x: sum(Q), y: N, color: N1}` it is `true` for mark `bar` and equally for
mark `point`; there is no stackable-mark gate in `isImplicitStack`. -/
theorem isImplicitStack_ignores_mark :
    (∀ (m m2 : WildcardProperty Mark) (encs : List EncodingQuery),
       isImplicitStack ⟨m, encs⟩ = isImplicitStack ⟨m2, encs⟩) ∧
    isImplicitStack ⟨.concrete .bar, c2Encodings⟩ = true ∧
    isImplicitStack ⟨.concrete .point, c2Encodings⟩ = true := by
  exact ⟨fun m m2 encs => rfl, by decide, by decide⟩

/-- C9: when a concrete mark outside the exhaustive mark switch (here
`geoshape`) reaches either predicate, the predicate throws an error naming
the mark instead of returning a boolean.  (The second message names
`hasAllRequiredChannelsForMark` — the source reuses that text — but names
the mark, as the claim requires.) -/
theorem unrecognized_mark_throws :
    ∀ (specM : SpecQueryModel), specM.getMark = .concrete .geoshape →
      hasAllRequiredChannelsForMarkSatisfy specM =
        .error ("hasAllRequiredChannelsForMark not implemented for mark\"geoshape\"") ∧
      hasAppropriateGraphicTypeForMarkSatisfy specM =
        .error ("hasAllRequiredChannelsForMark not implemented for markgeoshape") := by
  intro specM h
  obtain ⟨⟨mk, encs⟩⟩ := specM
  have h2 : mk = WildcardProperty.concrete Mark.geoshape := h
  subst h2
  exact ⟨rfl, rfl⟩

/-- C9 (witness): both predicates throw at a concrete geoshape-mark model. -/
theorem unrecognized_mark_throws_witness :
    (SpecQueryModel.getMark ⟨⟨.concrete .geoshape, []⟩⟩ = .concrete .geoshape) ∧
    hasAllRequiredChannelsForMarkSatisfy ⟨⟨.concrete .geoshape, []⟩⟩ =
      .error ("hasAllRequiredChannelsForMark not implemented for mark\"geoshape\"") := by
  exact ⟨rfl, (unrecognized_mark_throws ⟨⟨.concrete .geoshape, []⟩⟩ rfl).1⟩

/-- C8: on a model whose mark is concrete and whose encodings all carry
concrete channels, the `hasAllRequiredChannelsForMark` constraint is
satisfied exactly per mark: line/area need both `x` and `y`; text needs the
`text` channel; bar/circle/square/tick/rule/rect need `x` or `y`; point is
satisfied regardless (no channel is wildcarded anywhere, so its
wildcard-enumeration escape applies). -/
theorem hasAllRequiredChannelsForMark_per_mark :
    ∀ (specM : SpecQueryModel) (m : Mark) (schema : Schema) (opt : QueryConfig),
      specM.getMark = .concrete m →
      (∀ e ∈ specM.specQuery.encodings, isWildcard e.channel = false) →
      ((m = .area ∨ m = .line) →
         modelSatisfy hasAllRequiredChannelsForMark specM schema opt =
           .ok (specM.channelUsed .x && specM.channelUsed .y)) ∧
      (m = .text →
         modelSatisfy hasAllRequiredChannelsForMark specM schema opt =
           .ok (specM.channelUsed .text)) ∧
      ((m = .bar ∨ m = .circle ∨ m = .square ∨ m = .tick ∨ m = .rule ∨ m = .rect) →
         modelSatisfy hasAllRequiredChannelsForMark specM schema opt =
           .ok (specM.channelUsed .x || specM.channelUsed .y)) ∧
      (m = .point →
         modelSatisfy hasAllRequiredChannelsForMark specM schema opt = .ok true) := by
  intro specM m schema opt hmark hconc
  have hch : ∀ e ∈ specM.getEncodings, isWildcard e.channel = false := by
    intro e he
    exact hconc e (List.mem_of_mem_filter he)
  have hall : hasAllRequiredPropertiesSpecific hasAllRequiredChannelsForMark specM = true := by
    simp only [hasAllRequiredPropertiesSpecific, hasAllRequiredChannelsForMark,
               List.all_cons, List.all_nil, Bool.and_true, Bool.and_eq_true]
    constructor
    · rw [List.all_eq_true]
      intro e he
      simp [encPropTruthy, encPropIsWildcard, hch e he]
    · simp [hmark, isWildcard]
  have hsat : modelSatisfy hasAllRequiredChannelsForMark specM schema opt =
      hasAllRequiredChannelsForMarkSatisfy specM := by
    unfold modelSatisfy
    rw [hall]
    simp [hasAllRequiredChannelsForMark]
  refine ⟨?_, ?_, ?_, ?_⟩
  · rintro (rfl | rfl) <;>
      · rw [hsat]
        simp [hasAllRequiredChannelsForMarkSatisfy, hmark]
  · rintro rfl
    rw [hsat]
    simp [hasAllRequiredChannelsForMarkSatisfy, hmark]
  · rintro (rfl | rfl | rfl | rfl | rfl | rfl) <;>
      · rw [hsat]
        simp [hasAllRequiredChannelsForMarkSatisfy, hmark]
  · rintro rfl
    have hwip : specM.wildcardIndexHasProperty (.flat .channel) = false := by
      simp only [SpecQueryModel.wildcardIndexHasProperty]
      rw [List.any_eq_false]
      intro e he
      simp [encHasWildcardProp, encPropIsWildcard, hconc e he]
    rw [hsat]
    simp [hasAllRequiredChannelsForMarkSatisfy, hmark, hwip]

/-- C8 (witness): a concrete text-mark model without a `text` channel
violates the rule, by the per-mark theorem. -/
theorem hasAllRequiredChannelsForMark_per_mark_witness :
    (SpecQueryModel.getMark ⟨⟨.concrete .text, [.fieldQ { channel := .concrete .x }]⟩⟩ =
       .concrete .text) ∧
    modelSatisfy hasAllRequiredChannelsForMark
      ⟨⟨.concrete .text, [.fieldQ { channel := .concrete .x }]⟩⟩ () {} = .ok false := by
  refine ⟨rfl, ?_⟩
  have h := (hasAllRequiredChannelsForMark_per_mark
    ⟨⟨.concrete .text, [.fieldQ { channel := .concrete .x }]⟩⟩ .text () {} rfl
    (by decide)).2.1 rfl
  exact h

theorem checkSpecList_cons_active (c : SpecConstraint) (rest : List SpecConstraint)
    (specM : SpecQueryModel) (schema : Schema) (opt : QueryConfig)
    (h : (c.strict || opt.enabled c.name) = true) :
    checkSpecList (c :: rest) specM schema opt =
      match modelSatisfy c specM schema opt with
      | .error e => .error e
      | .ok false => .ok (some ("(spec) " ++ c.name))
      | .ok true => checkSpecList rest specM schema opt := by
  simp only [checkSpecList, h, if_true]

theorem checkSpecList_cons_inactive (c : SpecConstraint) (rest : List SpecConstraint)
    (specM : SpecQueryModel) (schema : Schema) (opt : QueryConfig)
    (h : (c.strict || opt.enabled c.name) = false) :
    checkSpecList (c :: rest) specM schema opt = checkSpecList rest specM schema opt := by
  simp only [checkSpecList, h]
  rfl

theorem checkSpecList_all_pass (l : List SpecConstraint) (specM : SpecQueryModel)
    (schema : Schema) (opt : QueryConfig)
    (h : ∀ d ∈ l, (d.strict || opt.enabled d.name) = true →
           modelSatisfy d specM schema opt = .ok true) :
    checkSpecList l specM schema opt = .ok none := by
  induction l with
  | nil => rfl
  | cons c rest ih =>
    cases hc : (c.strict || opt.enabled c.name) with
    | true =>
      rw [checkSpecList_cons_active c rest specM schema opt hc,
          h c (List.mem_cons_self c rest) hc]
      exact ih fun d hd => h d (List.mem_cons_of_mem c hd)
    | false =>
      rw [checkSpecList_cons_inactive c rest specM schema opt hc]
      exact ih fun d hd => h d (List.mem_cons_of_mem c hd)

theorem checkSpecList_first_fail (pre : List SpecConstraint) (c : SpecConstraint)
    (post : List SpecConstraint) (specM : SpecQueryModel) (schema : Schema)
    (opt : QueryConfig)
    (hpre : ∀ d ∈ pre, (d.strict || opt.enabled d.name) = true →
              modelSatisfy d specM schema opt = .ok true)
    (hact : (c.strict || opt.enabled c.name) = true)
    (hfail : modelSatisfy c specM schema opt = .ok false) :
    checkSpecList (pre ++ c :: post) specM schema opt =
      .ok (some ("(spec) " ++ c.name)) := by
  induction pre with
  | nil =>
    rw [List.nil_append, checkSpecList_cons_active c post specM schema opt hact, hfail]
  | cons d pre ih =>
    rw [List.cons_append]
    cases hd : (d.strict || opt.enabled d.name) with
    | true =>
      rw [checkSpecList_cons_active d (pre ++ c :: post) specM schema opt hd,
          hpre d (List.mem_cons_self d pre) hd]
      exact ih fun e he => hpre e (List.mem_cons_of_mem d he)
    | false =>
      rw [checkSpecList_cons_inactive d (pre ++ c :: post) specM schema opt hd]
      exact ih fun e he => hpre e (List.mem_cons_of_mem d he)

/-- C4: a strict constraint is evaluated by the checker loop even when the
options map has no (or a falsy) entry under its name, while a non-strict
constraint is evaluated only when the options map holds a truthy entry
under its own name — otherwise it is skipped and the loop proceeds as if it
were satisfied. -/
theorem checkSpec_activation :
    ∀ (c : SpecConstraint) (rest : List SpecConstraint) (specM : SpecQueryModel)
      (schema : Schema) (opt : QueryConfig),
      ((c.strict = true ∨ opt.enabled c.name = true) →
         checkSpecList (c :: rest) specM schema opt =
           match modelSatisfy c specM schema opt with
           | .error e => .error e
           | .ok false => .ok (some ("(spec) " ++ c.name))
           | .ok true => checkSpecList rest specM schema opt) ∧
      (c.strict = false → opt.enabled c.name = false →
         checkSpecList (c :: rest) specM schema opt =
           checkSpecList rest specM schema opt) := by
  intro c rest specM schema opt
  constructor
  · intro h
    refine checkSpecList_cons_active c rest specM schema opt ?_
    rcases h with h | h <;> simp [h]
  · intro h1 h2
    refine checkSpecList_cons_inactive c rest specM schema opt ?_
    simp [h1, h2]

/-- A model with a repeated concrete `x` channel (violating
`noRepeatedChannel`) used by the checker witnesses. -/
def checkerWitnessModel : SpecQueryModel :=
  ⟨⟨.concrete .point,
    [.fieldQ { channel := .concrete .x }, .fieldQ { channel := .concrete .x }]⟩⟩

/-- C4 (witness): with an empty options map, the strict `noRepeatedChannel`
is still evaluated (and reports its violation), while the non-strict
`omitRaw` — which would also be violated — is skipped. -/
theorem checkSpec_activation_witness :
    (noRepeatedChannel.strict = true ∨ ({} : QueryConfig).enabled noRepeatedChannel.name = true) ∧
    checkSpecList [noRepeatedChannel] checkerWitnessModel () {} =
      .ok (some "(spec) noRepeatedChannel") ∧
    omitRaw.strict = false ∧ ({} : QueryConfig).enabled omitRaw.name = false ∧
    checkSpecList [omitRaw] checkerWitnessModel () {} = .ok none := by
  refine ⟨Or.inl rfl, ?_, rfl, rfl, ?_⟩
  · have h := (checkSpec_activation noRepeatedChannel [] checkerWitnessModel () {}).1
      (Or.inl rfl)
    exact h
  · have h := (checkSpec_activation omitRaw [] checkerWitnessModel () {}).2 rfl rfl
    exact h

/-- C5: the checker iterates the constraints indexed under a property in
index order; at the first active constraint whose `satisfy` is false it
returns that constraint's name prefixed with `(spec) `, for every possible
tail of later constraints (so no later predicate can matter); if every
active constraint passes, or no constraint is indexed under the property,
it returns null (`none`). -/
theorem checkSpec_first_violation :
    (∀ (pre : List SpecConstraint) (c : SpecConstraint) (post : List SpecConstraint)
       (specM : SpecQueryModel) (schema : Schema) (opt : QueryConfig),
       (∀ d ∈ pre, (d.strict || opt.enabled d.name) = true →
          modelSatisfy d specM schema opt = .ok true) →
       (c.strict || opt.enabled c.name) = true →
       modelSatisfy c specM schema opt = .ok false →
       checkSpecList (pre ++ c :: post) specM schema opt =
         .ok (some ("(spec) " ++ c.name))) ∧
    (∀ (l : List SpecConstraint) (specM : SpecQueryModel) (schema : Schema)
       (opt : QueryConfig),
       (∀ d ∈ l, (d.strict || opt.enabled d.name) = true →
          modelSatisfy d specM schema opt = .ok true) →
       checkSpecList l specM schema opt = .ok none) ∧
    (∀ (prop : Property) (w : String) (specM : SpecQueryModel) (schema : Schema)
       (opt : QueryConfig),
       idxGetD SPEC_CONSTRAINTS_BY_PROPERTY (toKey prop) = [] →
       checkSpec prop w specM schema opt = .ok none) := by
  refine ⟨checkSpecList_first_fail, checkSpecList_all_pass, ?_⟩
  intro prop w specM schema opt h
  unfold checkSpec
  rw [h]
  rfl

/-- C5 (witness): with the cheap `noRepeatedChannel` violated first, the
checker reports it and the result is the same whatever expensive constraint
follows it in the list. -/
theorem checkSpec_first_violation_witness :
    ((noRepeatedChannel.strict || ({} : QueryConfig).enabled noRepeatedChannel.name) = true) ∧
    modelSatisfy noRepeatedChannel checkerWitnessModel () {} = .ok false ∧
    checkSpecList [noRepeatedChannel, hasAppropriateGraphicTypeForMark]
      checkerWitnessModel () {} = .ok (some "(spec) noRepeatedChannel") := by
  refine ⟨rfl, rfl, ?_⟩
  have h := checkSpec_first_violation.1 [] noRepeatedChannel
    [hasAppropriateGraphicTypeForMark] checkerWitnessModel () {}
    (fun d hd => absurd hd (List.not_mem_nil d)) rfl rfl
  exact h

theorem idxGetD_nil (k : String) : idxGetD [] k = [] := rfl

theorem idxGetD_cons (k0 : String) (l : List SpecConstraint) (rest : PropIdx) (k : String) :
    idxGetD ((k0, l) :: rest) k = if k0 = k then l else idxGetD rest k := by
  by_cases h : k0 = k
  · subst h
    simp [idxGetD, idxGet, List.find?_cons_of_pos]
  · have hb : (k0 == k) = false := by simpa using h
    simp only [idxGetD, idxGet, List.find?_cons, hb]
    simp [h]

theorem idxGetD_idxAdd (idx : PropIdx) (k k' : String) (c : SpecConstraint) :
    idxGetD (idxAdd idx k c) k' =
      if k' = k then idxGetD idx k' ++ [c] else idxGetD idx k' := by
  induction idx with
  | nil =>
    show idxGetD [(k, [c])] k' = _
    rw [idxGetD_cons]
    by_cases h : k' = k
    · simp [h, idxGetD_nil]
    · have h2 : ¬ (k = k') := fun hh => h hh.symm
      simp [h, h2, idxGetD_nil]
  | cons kv rest ih =>
    obtain ⟨k0, l⟩ := kv
    simp only [idxAdd]
    by_cases h0 : k0 = k
    · have hb : (k0 == k) = true := by simpa using h0
      rw [if_pos hb]
      subst h0
      simp only [idxGetD_cons]
      by_cases h' : k' = k0
      · subst h'
        simp
      · have h'' : ¬ (k0 = k') := fun hh => h' hh.symm
        simp [h', h'']
    · have hb : ¬ ((k0 == k) = true) := by simpa using h0
      rw [if_neg hb]
      simp only [idxGetD_cons, ih]
      by_cases h1 : k0 = k'
      · have h2 : ¬ (k' = k) := fun hh => h0 (h1.trans hh)
        simp [h1, h2]
      · simp [h1]

theorem foldl_idxAdd_getD (c : SpecConstraint) :
    ∀ (props : List Property) (idx : PropIdx) (k : String),
      (props.map toKey).Nodup →
      idxGetD (props.foldl (fun acc p => idxAdd acc (toKey p) c) idx) k =
        idxGetD idx k ++ (if k ∈ props.map toKey then [c] else []) := by
  intro props
  induction props with
  | nil => intro idx k _; simp
  | cons p rest ih =>
    intro idx k h
    rw [List.map_cons, List.nodup_cons] at h
    obtain ⟨hnot, hnd⟩ := h
    rw [List.foldl_cons, ih _ k hnd, idxGetD_idxAdd]
    by_cases hk : k = toKey p
    · subst hk
      simp [List.mem_cons, hnot]
    · simp [List.mem_cons, hk]

theorem buildIndex_getD :
    ∀ (cs : List SpecConstraint) (acc : PropIdx) (k : String),
      (∀ c ∈ cs, (c.properties.map toKey).Nodup) →
      idxGetD (cs.foldl insertConstraint acc) k =
        idxGetD acc k ++ cs.filter (fun c => (c.properties.map toKey).contains k) := by
  intro cs
  induction cs with
  | nil => intro acc k _; simp
  | cons c rest ih =>
    intro acc k h
    rw [List.foldl_cons, ih _ k (fun d hd => h d (List.mem_cons_of_mem c hd))]
    have hc := h c (List.mem_cons_self c rest)
    show idxGetD (c.properties.foldl (fun a p => idxAdd a (toKey p) c) acc) k ++ _ = _
    rw [foldl_idxAdd_getD c c.properties acc k hc, List.filter_cons]
    by_cases hm : k ∈ c.properties.map toKey
    · have hcon : ((c.properties.map toKey).contains k) = true := List.elem_iff.mpr hm
      simp [hm, hcon, List.append_assoc]
    · have hcon : ((c.properties.map toKey).contains k) = false := by
        cases hx : (c.properties.map toKey).contains k
        · rfl
        · exact absurd (List.elem_iff.mp hx) hm
      simp [hm, hcon]

theorem countP_name_unique :
    ∀ (l : List SpecConstraint) (c : SpecConstraint) (q : SpecConstraint → Bool),
      (l.map (fun d => d.name)).Nodup → c ∈ l → q c = true →
      l.countP (fun d => (d.name == c.name) && q d) = 1 := by
  intro l
  induction l with
  | nil => intro c q _ hc _; exact absurd hc (List.not_mem_nil c)
  | cons d rest ih =>
    intro c q hnd hc hq
    rw [List.map_cons, List.nodup_cons] at hnd
    obtain ⟨hdnot, hrest⟩ := hnd
    rcases List.mem_cons.mp hc with rfl | hc2
    · have hpred : ((c.name == c.name) && q c) = true := by simp [hq]
      have hzero : rest.countP (fun e => (e.name == c.name) && q e) = 0 := by
        rw [List.countP_eq_zero]
        intro e he hcontra
        have hn : e.name = c.name := by
          have hx := ((Bool.and_eq_true _ _).mp hcontra).1
          simpa using hx
        exact hdnot (hn ▸ List.mem_map_of_mem (fun x => x.name) he)
      rw [List.countP_cons]
      simp [hpred, hzero, hq]
    · have hne : d.name ≠ c.name := by
        intro hh
        exact hdnot (hh ▸ List.mem_map_of_mem (fun x => x.name) hc2)
      have hpred : ((d.name == c.name) && q d) = false := by simp [hne]
      simpa [List.countP_cons, hpred] using ih c q hrest hc2 hq

/-- C6: the property index built from the catalogue maps every key to
exactly the catalogue constraints declaring it, in registration order (so
each constraint occurs exactly once — by name — under each property it
declares); a key declared by no constraint yields the empty list, and
`checkSpec` on such a property returns null. -/
theorem spec_index_complete :
    (∀ k, idxGetD SPEC_CONSTRAINTS_BY_PROPERTY k =
       SPEC_CONSTRAINTS.filter (fun c => (c.properties.map toKey).contains k)) ∧
    (∀ c ∈ SPEC_CONSTRAINTS, ∀ p ∈ c.properties,
       (idxGetD SPEC_CONSTRAINTS_BY_PROPERTY (toKey p)).countP
         (fun d => d.name == c.name) = 1) ∧
    (∀ (prop : Property) (w : String) (specM : SpecQueryModel) (schema : Schema)
       (opt : QueryConfig),
       SPEC_CONSTRAINTS.filter
         (fun c => (c.properties.map toKey).contains (toKey prop)) = [] →
       checkSpec prop w specM schema opt = .ok none) := by
  have hnodups : ∀ c ∈ SPEC_CONSTRAINTS, (c.properties.map toKey).Nodup := by decide
  have h1 : ∀ k, idxGetD SPEC_CONSTRAINTS_BY_PROPERTY k =
      SPEC_CONSTRAINTS.filter (fun c => (c.properties.map toKey).contains k) := by
    intro k
    have h := buildIndex_getD SPEC_CONSTRAINTS [] k hnodups
    simpa using h
  have hnames : (SPEC_CONSTRAINTS.map (fun d => d.name)).Nodup := by decide
  refine ⟨h1, ?_, ?_⟩
  · intro c hc p hp
    rw [h1 (toKey p), List.countP_filter]
    exact countP_name_unique SPEC_CONSTRAINTS c _ hnames hc
      (List.elem_iff.mpr (List.mem_map_of_mem toKey hp))
  · intro prop w specM schema opt h
    unfold checkSpec
    rw [h1 (toKey prop), h]
    rfl

/-- C6 (witness): `omitRepeatedField` declares the `field` property and
occurs exactly once under the `field` key; no constraint declares the
`stack` property, and `checkSpec` on it returns null. -/
theorem spec_index_complete_witness :
    (omitRepeatedField ∈ SPEC_CONSTRAINTS) ∧
    (Property.flat .field ∈ omitRepeatedField.properties) ∧
    (idxGetD SPEC_CONSTRAINTS_BY_PROPERTY "field").countP
      (fun d => d.name == omitRepeatedField.name) = 1 ∧
    SPEC_CONSTRAINTS.filter
      (fun c => (c.properties.map toKey).contains (toKey (.flat .stack))) = [] ∧
    checkSpec (.flat .stack) "w" checkerWitnessModel () {} = .ok none := by
  have hmem : omitRepeatedField ∈ SPEC_CONSTRAINTS := by
    unfold SPEC_CONSTRAINTS
    simp
  refine ⟨hmem, by decide, ?_, rfl, ?_⟩
  · exact spec_index_complete.2.1 omitRepeatedField hmem (.flat .field) (by decide)
  · exact spec_index_complete.2.2 (.flat .stack) "w" checkerWitnessModel () {} rfl

theorem not_all_bool {α : Type} (l : List α) (p : α → Bool) :
    (!(l.all p)) = l.any fun a => !(p a) := by
  induction l with
  | nil => rfl
  | cons a l ih => simp [List.all_cons, List.any_cons, Bool.not_and, ih]

/-- Follows the spec's words (§4.3 / C3): some declared property of the
constraint is currently a Wildcard Value somewhere applicable — the mark for
the mark property; for an encoding property, some usable encoding where the
property is present (truthy) and wildcarded; for a nested property, some
usable encoding where the parent object exists and its child is
wildcarded. -/
def declaredPropertyIsWildcarded (c : SpecConstraint) (specM : SpecQueryModel) : Bool :=
  c.properties.any fun prop =>
    match prop with
    | .flat .mark => isWildcard specM.getMark
    | .nested parent child =>
      specM.getEncodings.any fun encQ =>
        encPropTruthy encQ parent && encNestedChildIsWildcard encQ parent child
    | .flat p =>
      specM.getEncodings.any fun encQ =>
        encPropTruthy encQ p && encPropIsWildcard encQ p

theorem flat_prop_any_wildcard (specM : SpecQueryModel) (p : FlatProp) :
    (specM.getEncodings.any fun encQ => encPropTruthy encQ p && encPropIsWildcard encQ p) =
    !(specM.getEncodings.all fun encQ =>
       if !(encPropTruthy encQ p) then true else !(encPropIsWildcard encQ p)) := by
  rw [not_all_bool]
  congr 1
  funext e
  cases ht : encPropTruthy e p <;> simp [ht]

theorem nested_prop_any_wildcard (specM : SpecQueryModel) (parent : FlatProp) (child : String) :
    (specM.getEncodings.any fun encQ =>
       encPropTruthy encQ parent && encNestedChildIsWildcard encQ parent child) =
    !(specM.getEncodings.all fun encQ =>
       if !(encPropTruthy encQ parent) then true
       else !(encNestedChildIsWildcard encQ parent child)) := by
  rw [not_all_bool]
  congr 1
  funext e
  cases ht : encPropTruthy e parent <;> simp [ht]

theorem declared_eq_not_hasAll (c : SpecConstraint) (specM : SpecQueryModel) :
    declaredPropertyIsWildcarded c specM = !(hasAllRequiredPropertiesSpecific c specM) := by
  unfold declaredPropertyIsWildcarded hasAllRequiredPropertiesSpecific
  rw [not_all_bool]
  congr 1
  funext prop
  cases prop with
  | nested parent child => exact nested_prop_any_wildcard specM parent child
  | flat p =>
    cases p
    · exact (Bool.not_not (isWildcard specM.getMark)).symm
    all_goals exact flat_prop_any_wildcard specM _

theorem modelSatisfy_of_declared_wildcard (d : SpecConstraint) (specM : SpecQueryModel)
    (schema : Schema) (opt : QueryConfig)
    (ha : d.allowWildcardForProperties = false)
    (hd : declaredPropertyIsWildcarded d specM = true) :
    modelSatisfy d specM schema opt = .ok true := by
  unfold modelSatisfy
  rw [declared_eq_not_hasAll] at hd
  have hfalse : hasAllRequiredPropertiesSpecific d specM = false := by
    cases hx : hasAllRequiredPropertiesSpecific d specM
    · rfl
    · rw [hx] at hd
      simp at hd
  rw [ha, hfalse]
  simp

theorem string_append_left_cancel (s a b : String) (h : s ++ a = s ++ b) : a = b := by
  have hd : (s ++ a).data = (s ++ b).data := congrArg String.data h
  rw [String.data_append, String.data_append] at hd
  have h2 := List.append_cancel_left hd
  cases a with
  | mk la =>
    cases b with
    | mk lb => exact congrArg String.mk h2

/-- C3: for a constraint whose `allowWildcardForProperties` flag is false,
if any declared property is currently a Wildcard Value anywhere applicable,
its `satisfy` returns true no matter what its predicate computes, and
`checkSpec` never returns that constraint's name (given that every
same-named constraint indexed under the checked property is in the same
situation — the catalogue's names are unique). -/
theorem skip_on_wildcard :
    ∀ (c : SpecConstraint) (specM : SpecQueryModel) (schema : Schema) (opt : QueryConfig),
      c.allowWildcardForProperties = false →
      declaredPropertyIsWildcarded c specM = true →
      (∀ f, modelSatisfy { c with satisfy := f } specM schema opt = .ok true) ∧
      (∀ (prop : Property) (w : String),
         (∀ d ∈ idxGetD SPEC_CONSTRAINTS_BY_PROPERTY (toKey prop), d.name = c.name →
            d.allowWildcardForProperties = false ∧
            declaredPropertyIsWildcarded d specM = true) →
         checkSpec prop w specM schema opt ≠ .ok (some ("(spec) " ++ c.name))) := by
  intro c specM schema opt hallow hdecl
  constructor
  · intro f
    exact modelSatisfy_of_declared_wildcard { c with satisfy := f } specM schema opt
      hallow hdecl
  · intro prop w
    unfold checkSpec
    generalize idxGetD SPEC_CONSTRAINTS_BY_PROPERTY (toKey prop) = L
    induction L with
    | nil =>
      intro _ hcontra
      simp [checkSpecList] at hcontra
    | cons d rest ih =>
      intro hnames hcontra
      have hrest : ∀ e ∈ rest, e.name = c.name →
          e.allowWildcardForProperties = false ∧
          declaredPropertyIsWildcarded e specM = true :=
        fun e he hne => hnames e (List.mem_cons_of_mem d he) hne
      by_cases hact : (d.strict || opt.enabled d.name) = true
      · rw [checkSpecList_cons_active d rest specM schema opt hact] at hcontra
        cases hms : modelSatisfy d specM schema opt with
        | error e =>
          rw [hms] at hcontra
          simp at hcontra
        | ok b =>
          cases b with
          | false =>
            rw [hms] at hcontra
            simp only [Except.ok.injEq, Option.some.injEq] at hcontra
            have hdn : d.name = c.name := string_append_left_cancel "(spec) " _ _ hcontra
            have hd := hnames d (List.mem_cons_self d rest) hdn
            have hok := modelSatisfy_of_declared_wildcard d specM schema opt hd.1 hd.2
            rw [hok] at hms
            simp at hms
          | true =>
            rw [hms] at hcontra
            exact ih hrest hcontra
      · have hact2 : (d.strict || opt.enabled d.name) = false := by
          cases hx : (d.strict || opt.enabled d.name)
          · rfl
          · exact absurd hx hact
        rw [checkSpecList_cons_inactive d rest specM schema opt hact2] at hcontra
        exact ih hrest hcontra

/-- The model used by the skip-on-wildcard witness: a bar-mark query whose
`x` encoding carries a concrete scale object with a wildcarded `zero`. -/
def c3WitnessModel : SpecQueryModel :=
  ⟨⟨.concrete .bar,
    [.fieldQ { channel := .concrete .x, type := some (.concrete .quantitative),
               scale := some (.concrete { zero := some .wildcard }) }]⟩⟩

/-- C3 (witness): `alwaysIncludeZeroInScaleWithBarMark` (not
wildcard-tolerant, declaring `scale.zero`) is treated as satisfied — even
with a predicate that always answers false — on a model whose `scale.zero`
is wildcarded, and `checkSpec` on `scale.zero` never reports it. -/
theorem skip_on_wildcard_witness :
    (alwaysIncludeZeroInScaleWithBarMark.allowWildcardForProperties = false) ∧
    (declaredPropertyIsWildcarded alwaysIncludeZeroInScaleWithBarMark c3WitnessModel = true) ∧
    modelSatisfy
      { alwaysIncludeZeroInScaleWithBarMark with satisfy := fun _ _ _ => .ok false }
      c3WitnessModel () {} = .ok true ∧
    checkSpec (getEncodingNestedProp .scale "zero") "w" c3WitnessModel () {} ≠
      .ok (some ("(spec) " ++ alwaysIncludeZeroInScaleWithBarMark.name)) := by
  have h := skip_on_wildcard alwaysIncludeZeroInScaleWithBarMark c3WitnessModel () {}
    rfl (by decide)
  refine ⟨rfl, by decide, h.1 _, h.2 (getEncodingNestedProp .scale "zero") "w" ?_⟩
  intro d hd hname
  have hL : idxGetD SPEC_CONSTRAINTS_BY_PROPERTY (toKey (getEncodingNestedProp .scale "zero")) =
      [alwaysIncludeZeroInScaleWithBarMark] := rfl
  rw [hL] at hd
  have hda : d = alwaysIncludeZeroInScaleWithBarMark := by simpa using hd
  subst hda
  exact ⟨rfl, by decide⟩

/-- C10 (counterexample): the claim says an excluded property key never
causes `hasWildcard` to return true.  But a short wildcard `'?'` stored at
the excluded top-level key `channel` is scanned character-wise by the
nested-property loop (`for..in` over a string visits its indices), and its
character at index `0` — the string `"?"` itself — is reported as a nested
wildcard under the non-excluded key `"channel.0"`: the call returns true.
Excluding that nested key as well yields false, isolating the leak. -/
theorem hasWildcard_excluded_short_wildcard_counterexample :
    hasWildcard ⟨.str "point", [[("channel", JVal.str "?")]]⟩ ["channel"] = true ∧
    hasWildcard ⟨.str "point", [[("channel", JVal.str "?")]]⟩ ["channel", "channel.0"] = false := by
  exact ⟨rfl, rfl⟩

/-- C10 (amended): `hasWildcard` returns false whenever the wildcard mark
(if any) is excluded and, for every top-level encoding property, a wildcard
value only sits at an excluded key and every wildcard child outside the
`enum`/`name` keys sits at an excluded `parent.child` key — in particular a
specification whose only wildcards are the `enum`/`name` fields inside
top-level property objects yields false, since those child keys are
unconditionally skipped.  Conversely a wildcard value at a non-excluded
top-level key always yields true.  (The children scanned include a string
value's characters, so a short wildcard `'?'` at an excluded top-level key
still requires its nested key `parent.0` to be excluded.) -/
theorem hasWildcard_amended :
    (∀ (specQ : SpecQueryJ) (exclude : List String),
       (isWildcardJ specQ.mark = true → "mark" ∈ exclude) →
       (∀ enc ∈ specQ.encodings, ∀ kv ∈ enc,
          ENCODING_TOPLEVEL_PROPS.contains kv.1 = true →
          (isWildcardJ kv.2 = true → kv.1 ∈ exclude) ∧
          (∀ ckv ∈ childEntries kv.2,
             (["enum", "name"].contains ckv.1) = false →
             isWildcardJ ckv.2 = true → (kv.1 ++ "." ++ ckv.1) ∈ exclude)) →
       hasWildcard specQ exclude = false) ∧
    (∀ (specQ : SpecQueryJ) (exclude : List String), ∀ enc ∈ specQ.encodings, ∀ kv ∈ enc,
       ENCODING_TOPLEVEL_PROPS.contains kv.1 = true →
       isWildcardJ kv.2 = true → ¬(kv.1 ∈ exclude) →
       hasWildcard specQ exclude = true) := by
  constructor
  · intro specQ exclude hmark henc
    unfold hasWildcard
    rw [Bool.or_eq_false_iff]
    constructor
    · cases hw : isWildcardJ specQ.mark
      · rfl
      · simp [hmark hw]
    · rw [List.any_eq_false]
      intro enc hencm
      rw [Bool.not_eq_true, List.any_eq_false]
      intro kv hkv
      cases hcont : ENCODING_TOPLEVEL_PROPS.contains kv.1
      · simp
      · obtain ⟨h1, h2⟩ := henc enc hencm kv hkv hcont
        simp only [hcont, Bool.true_and, Bool.not_eq_true, Bool.or_eq_false_iff]
        constructor
        · cases hw : isWildcardJ kv.2
          · rfl
          · simp [h1 hw]
        · rw [List.any_eq_false]
          intro ckv hckv
          cases hskip : (["enum", "name"].contains ckv.1)
          · cases hw : isWildcardJ ckv.2
            · simp [hw]
            · simp [h2 ckv hckv hskip hw]
          · simp [hskip]
  · intro specQ exclude enc hencm kv hkv hcont hw hnot
    unfold hasWildcard
    have hexc : exclude.contains kv.1 = false := by
      cases hx : exclude.contains kv.1
      · rfl
      · exact absurd (List.elem_iff.mp hx) hnot
    have hB : (specQ.encodings.any fun encQ =>
        encQ.any fun kv2 =>
          ENCODING_TOPLEVEL_PROPS.contains kv2.1 &&
          ((isWildcardJ kv2.2 && !(exclude.contains kv2.1)) ||
           (childEntries kv2.2).any fun ckv =>
             !(["enum", "name"].contains ckv.1) &&
             isWildcardJ ckv.2 &&
             !(exclude.contains (kv2.1 ++ "." ++ ckv.1)))) = true := by
      rw [List.any_eq_true]
      refine ⟨enc, hencm, ?_⟩
      rw [List.any_eq_true]
      refine ⟨kv, hkv, ?_⟩
      rw [hcont, hw, hexc]
      rfl
    rw [hB, Bool.or_true]

/-- C10 (witness): a wildcard mark and a wildcard scale object, both
excluded, are not reported (the wildcard object's `name`/`enum` children
are skipped); a non-excluded wildcard object at `channel` is reported. -/
theorem hasWildcard_amended_witness :
    hasWildcard
      ⟨.str "?",
       [[("scale", JVal.obj [("name", .str "s"), ("enum", .arr [.str "?"])]),
         ("field", .str "x")]]⟩ ["mark", "scale"] = false ∧
    hasWildcard ⟨.str "point", [[("channel", JVal.obj [("name", .str "c")])]]⟩ [] = true := by
  constructor
  · refine hasWildcard_amended.1 _ _ (fun _ => by decide) ?_
    intro enc henc kv hkv hcont
    have henc2 := List.mem_singleton.mp henc
    subst henc2
    rcases List.mem_cons.mp hkv with rfl | hkv2
    · refine ⟨fun _ => by decide, ?_⟩
      intro ckv hckv hskip hw
      rcases List.mem_cons.mp hckv with rfl | hckv2
      · exact absurd hskip (by decide)
      · rcases List.mem_singleton.mp hckv2 with rfl
        exact absurd hskip (by decide)
    · rcases List.mem_singleton.mp hkv2 with rfl
      refine ⟨fun hw => absurd hw (by decide), ?_⟩
      intro ckv hckv hskip hw
      rcases List.mem_singleton.mp hckv with rfl
      exact absurd hw (by decide)
  · exact hasWildcard_amended.2 _ [] _ (List.mem_cons_self _ _) _ (List.mem_cons_self _ _)
      rfl rfl (List.not_mem_nil _)

theorem jGet_cons (k0 : String) (v0 : JVal) (rest : List (String × JVal)) (k : String) :
    jGet ((k0, v0) :: rest) k = if k0 = k then some v0 else jGet rest k := by
  by_cases h : k0 = k
  · subst h
    simp [jGet, List.find?_cons_of_pos]
  · have hb : (k0 == k) = false := by simpa using h
    simp only [jGet, List.find?_cons, hb]
    simp [h]

theorem jGet_jSet_self (fs : List (String × JVal)) (k : String) (v : JVal) :
    jGet (jSet fs k v) k = some v := by
  induction fs with
  | nil => simp [jSet, jGet_cons]
  | cons kv rest ih =>
    obtain ⟨k0, v0⟩ := kv
    simp only [jSet]
    by_cases h : k0 = k
    · have hb : (k0 == k) = true := by simpa using h
      rw [if_pos hb, jGet_cons]
      simp [h]
    · have hb : ¬ ((k0 == k) = true) := by simpa using h
      rw [if_neg hb, jGet_cons]
      simp [h, ih]

theorem jGet_jSet_other (fs : List (String × JVal)) (k k' : String) (v : JVal)
    (h : k' ≠ k) : jGet (jSet fs k v) k' = jGet fs k' := by
  induction fs with
  | nil =>
    have h2 : ¬ (k = k') := fun hh => h hh.symm
    simp [jSet, jGet_cons, h2, jGet]
  | cons kv rest ih =>
    obtain ⟨k0, v0⟩ := kv
    simp only [jSet]
    by_cases h0 : k0 = k
    · have hb : (k0 == k) = true := by simpa using h0
      rw [if_pos hb, jGet_cons, jGet_cons]
      have hne : ¬ (k0 = k') := fun hh => h (hh.symm.trans h0)
      simp [hne]
    · have hb : ¬ ((k0 == k) = true) := by simpa using h0
      rw [if_neg hb, jGet_cons, jGet_cons, ih]

theorem jSet_append_of_not_mem (fs : List (String × JVal)) (k : String) (v : JVal)
    (h : ¬ (k ∈ fs.map Prod.fst)) : jSet fs k v = fs ++ [(k, v)] := by
  induction fs with
  | nil => rfl
  | cons kv rest ih =>
    obtain ⟨k0, v0⟩ := kv
    rw [List.map_cons, List.mem_cons] at h
    push_neg at h
    obtain ⟨h1, h2⟩ := h
    have hb : ¬ ((k0 == k) = true) := by
      simp only [beq_iff_eq]
      exact fun hh => h1 hh.symm
    simp only [jSet]
    rw [if_neg hb, ih h2, List.cons_append]

theorem foldl_jSet_filter (P : String → Bool) (f : String → JVal → JVal) :
    ∀ (fields acc : List (String × JVal)),
      (fields.map Prod.fst).Nodup →
      (∀ kv ∈ fields, ¬ (kv.1 ∈ acc.map Prod.fst)) →
      fields.foldl (fun a kv => if P kv.1 then jSet a kv.1 (f kv.1 kv.2) else a) acc =
        acc ++ fields.filterMap
          (fun kv => if P kv.1 then some (kv.1, f kv.1 kv.2) else none) := by
  intro fields
  induction fields with
  | nil => intro acc _ _; simp
  | cons kv rest ih =>
    intro acc hnd hdisj
    rw [List.map_cons, List.nodup_cons] at hnd
    obtain ⟨hnot, hnd2⟩ := hnd
    rw [List.foldl_cons, List.filterMap_cons]
    by_cases hp : P kv.1 = true
    · rw [if_pos hp, if_pos hp]
      have hset : jSet acc kv.1 (f kv.1 kv.2) = acc ++ [(kv.1, f kv.1 kv.2)] :=
        jSet_append_of_not_mem acc kv.1 _ (hdisj kv (List.mem_cons_self kv rest))
      rw [hset, ih (acc ++ [(kv.1, f kv.1 kv.2)]) hnd2 ?_, List.append_assoc]
      · rfl
      · intro kv2 hkv2
        rw [List.map_append, List.mem_append]
        push_neg
        refine ⟨hdisj kv2 (List.mem_cons_of_mem kv hkv2), ?_⟩
        simp only [List.map_cons, List.map_nil, List.mem_singleton]
        intro hh
        exact hnot (hh ▸ List.mem_map_of_mem Prod.fst hkv2)
    · rw [if_neg hp, if_neg hp]
      exact ih acc hnd2 fun kv2 hkv2 => hdisj kv2 (List.mem_cons_of_mem kv hkv2)

theorem jGet_filterMap (P : String → Bool) (f : String → JVal → JVal) :
    ∀ (fields : List (String × JVal)) (k : String),
      jGet (fields.filterMap
        (fun kv => if P kv.1 then some (kv.1, f kv.1 kv.2) else none)) k =
      if P k then (jGet fields k).map (f k) else none := by
  intro fields
  induction fields with
  | nil =>
    intro k
    cases hp : P k <;> simp [jGet, hp]
  | cons kv rest ih =>
    intro k
    obtain ⟨k0, v0⟩ := kv
    rw [List.filterMap_cons]
    by_cases hk : k0 = k
    · subst hk
      by_cases hp : P k0 = true
      · rw [if_pos hp, jGet_cons, jGet_cons]
        simp [hp]
      · have hp2 : P k0 = false := by
          cases hx : P k0
          · rfl
          · exact absurd hx hp
        rw [if_neg hp, ih, hp2, jGet_cons]
        simp [hp2]
    · by_cases hp : P k0 = true
      · rw [if_pos hp, jGet_cons, jGet_cons]
        rw [if_neg hk, if_neg hk, ih]
      · rw [if_neg hp, ih, jGet_cons, if_neg hk]

/-- Follows the spec's words: the channel definition describes a count
aggregate with no (truthy) field on a field-backed encoding (no `autoCount`
and no `value` key, the variants being mutually exclusive). -/
def countAggregateNoField (cd : List (String × JVal)) : Bool :=
  (jGet cd "autoCount").isNone && (jGet cd "value").isNone &&
  aggregateIsCount (jGet cd "aggregate") && !(truthyO (jGet cd "field"))

/-- Follows the spec's words (§6, input normalization): the expected
contents of a converted encoding, key by key — the channel under `channel`;
every channel-local top-level property copied verbatim except that a null
`bin`/`scale`/`axis`/`legend` becomes `false` and a count aggregate with no
field yields the sentinel field `*`; nothing else. -/
def fromSpecExpectedLookup (ch : String) (cd : List (String × JVal)) (k : String) :
    Option JVal :=
  if k == "channel" then some (.str ch)
  else if !(ENCODING_TOPLEVEL_PROPS.contains k) then none
  else if k == "field" && countAggregateNoField cd then some (.str "*")
  else (jGet cd k).map (normalizeProp k)

theorem isNone_map (o : Option JVal) (f : JVal → JVal) : (o.map f).isNone = o.isNone := by
  cases o <;> rfl

theorem aggregateIsCount_map_normalize (o : Option JVal) :
    aggregateIsCount (o.map (normalizeProp "aggregate")) = aggregateIsCount o := by
  cases o with
  | none => rfl
  | some v => cases v <;> rfl

theorem truthyO_map_normalize_field (o : Option JVal) :
    truthyO (o.map (normalizeProp "field")) = truthyO o := by
  cases o with
  | none => rfl
  | some v => cases v <;> rfl

theorem convertChannelDef_lookup (ch : String) (cd : List (String × JVal))
    (hnd : (cd.map Prod.fst).Nodup) (hch : ¬ ("channel" ∈ cd.map Prod.fst)) (k : String) :
    jGet (convertChannelDef ch cd) k = fromSpecExpectedLookup ch cd k := by
  have hdisj : ∀ kv ∈ cd,
      ¬ (kv.1 ∈ ([("channel", JVal.str ch)] : List (String × JVal)).map Prod.fst) := by
    intro kv hkv
    simp only [List.map_cons, List.map_nil, List.mem_singleton]
    intro hh
    exact hch (hh ▸ List.mem_map_of_mem Prod.fst hkv)
  have hbase : cd.foldl
      (fun acc kv => if ENCODING_TOPLEVEL_PROPS.contains kv.1 then
         jSet acc kv.1 (normalizeProp kv.1 kv.2) else acc)
      [("channel", JVal.str ch)] =
      ("channel", JVal.str ch) :: cd.filterMap
        (fun kv => if ENCODING_TOPLEVEL_PROPS.contains kv.1 then
           some (kv.1, normalizeProp kv.1 kv.2) else none) :=
    foldl_jSet_filter (fun s => ENCODING_TOPLEVEL_PROPS.contains s) normalizeProp cd
      [("channel", JVal.str ch)] hnd hdisj
  have hcop : ∀ k2, jGet (cd.filterMap
      (fun kv => if ENCODING_TOPLEVEL_PROPS.contains kv.1 then
         some (kv.1, normalizeProp kv.1 kv.2) else none)) k2 =
      if ENCODING_TOPLEVEL_PROPS.contains k2 then (jGet cd k2).map (normalizeProp k2)
      else none :=
    fun k2 => jGet_filterMap (fun s => ENCODING_TOPLEVEL_PROPS.contains s) normalizeProp cd k2
  have hkey : ∀ k2, ¬ (k2 = "channel") →
      jGet (("channel", JVal.str ch) :: cd.filterMap
        (fun kv => if ENCODING_TOPLEVEL_PROPS.contains kv.1 then
           some (kv.1, normalizeProp kv.1 kv.2) else none)) k2 =
      (if ENCODING_TOPLEVEL_PROPS.contains k2 then (jGet cd k2).map (normalizeProp k2)
       else none) := by
    intro k2 hk2
    rw [jGet_cons, if_neg (fun hh => hk2 hh.symm), hcop k2]
  have hcond : (isFieldQueryJ (("channel", JVal.str ch) :: cd.filterMap
        (fun kv => if ENCODING_TOPLEVEL_PROPS.contains kv.1 then
           some (kv.1, normalizeProp kv.1 kv.2) else none)) &&
      aggregateIsCount (jGet (("channel", JVal.str ch) :: cd.filterMap
        (fun kv => if ENCODING_TOPLEVEL_PROPS.contains kv.1 then
           some (kv.1, normalizeProp kv.1 kv.2) else none)) "aggregate") &&
      !(truthyO (jGet (("channel", JVal.str ch) :: cd.filterMap
        (fun kv => if ENCODING_TOPLEVEL_PROPS.contains kv.1 then
           some (kv.1, normalizeProp kv.1 kv.2) else none)) "field"))) =
      countAggregateNoField cd := by
    unfold isFieldQueryJ countAggregateNoField
    rw [hkey "autoCount" (by decide), hkey "value" (by decide),
        hkey "aggregate" (by decide), hkey "field" (by decide)]
    rw [if_pos (by decide : (ENCODING_TOPLEVEL_PROPS.contains "autoCount") = true),
        if_pos (by decide : (ENCODING_TOPLEVEL_PROPS.contains "value") = true),
        if_pos (by decide : (ENCODING_TOPLEVEL_PROPS.contains "aggregate") = true),
        if_pos (by decide : (ENCODING_TOPLEVEL_PROPS.contains "field") = true)]
    rw [isNone_map, isNone_map, aggregateIsCount_map_normalize, truthyO_map_normalize_field]
  simp only [convertChannelDef]
  rw [hbase, hcond]
  by_cases hc : countAggregateNoField cd = true
  · rw [if_pos hc]
    by_cases hk : k = "field"
    · subst hk
      rw [jGet_jSet_self]
      unfold fromSpecExpectedLookup
      rw [if_neg (by decide : ¬ (("field" == "channel") = true)),
          if_neg (by decide : ¬ ((!(ENCODING_TOPLEVEL_PROPS.contains "field")) = true)),
          if_pos (by simp [hc] : (("field" == "field") && countAggregateNoField cd) = true)]
    · rw [jGet_jSet_other _ _ _ _ hk]
      by_cases hck : k = "channel"
      · subst hck
        rw [jGet_cons, if_pos rfl]
        unfold fromSpecExpectedLookup
        rw [if_pos (by decide : (("channel" == "channel") = true))]
      · rw [hkey k hck]
        unfold fromSpecExpectedLookup
        rw [if_neg (by simpa using hck : ¬ ((k == "channel") = true))]
        by_cases hcont : (ENCODING_TOPLEVEL_PROPS.contains k) = true
        · rw [if_pos hcont,
              if_neg (by rw [hcont]; decide : ¬ ((!(ENCODING_TOPLEVEL_PROPS.contains k)) = true)),
              if_neg (by simp [hk] : ¬ (((k == "field") && countAggregateNoField cd) = true))]
        · have hcf : (ENCODING_TOPLEVEL_PROPS.contains k) = false := by
            cases hx : ENCODING_TOPLEVEL_PROPS.contains k
            · rfl
            · exact absurd hx hcont
          rw [if_neg hcont,
              if_pos (by rw [hcf]; decide : ((!(ENCODING_TOPLEVEL_PROPS.contains k)) = true))]
  · have hc2 : countAggregateNoField cd = false := by
      cases hx : countAggregateNoField cd
      · rfl
      · exact absurd hx hc
    rw [if_neg hc]
    by_cases hck : k = "channel"
    · subst hck
      rw [jGet_cons, if_pos rfl]
      unfold fromSpecExpectedLookup
      rw [if_pos (by decide : (("channel" == "channel") = true))]
    · rw [hkey k hck]
      unfold fromSpecExpectedLookup
      rw [if_neg (by simpa using hck : ¬ ((k == "channel") = true))]
      by_cases hcont : (ENCODING_TOPLEVEL_PROPS.contains k) = true
      · rw [if_pos hcont,
            if_neg (by rw [hcont]; decide : ¬ ((!(ENCODING_TOPLEVEL_PROPS.contains k)) = true)),
            if_neg (by simp [hc2] : ¬ (((k == "field") && countAggregateNoField cd) = true))]
      · have hcf : (ENCODING_TOPLEVEL_PROPS.contains k) = false := by
          cases hx : ENCODING_TOPLEVEL_PROPS.contains k
          · rfl
          · exact absurd hx hcont
        rw [if_neg hcont,
            if_pos (by rw [hcf]; decide : ((!(ENCODING_TOPLEVEL_PROPS.contains k)) = true))]

/-- A top-level key's value is truthy whenever the key is present (true for
every type-correct document: data/transform/config are objects/arrays). -/
def truthyIfPresent : Option JVal → Bool
  | none => true
  | some v => truthyJ v

/-- C7: `fromSpec` flattens a nested chart description into one encoding
entry per channel.  For any document whose channel definitions have
duplicate-free keys and no `channel` key, and whose top-level values are
truthy when present: data/transform/config pass through exactly when
present, the mark is copied, the encodings correspond 1:1 to the channels,
and every encoding's content agrees key-by-key with the spec-side
description `fromSpecExpectedLookup` — the channel under `channel`; each
top-level channel-local property verbatim except null → false for
bin/scale/axis/legend; the sentinel field `*` for a count aggregate with no
field; nothing else. -/
theorem fromSpec_normalization :
    ∀ (sp : VLUnitSpec),
      truthyIfPresent sp.data = true →
      truthyIfPresent sp.transform = true →
      truthyIfPresent sp.config = true →
      (∀ p ∈ sp.encoding, (p.2.map Prod.fst).Nodup ∧ ¬ ("channel" ∈ p.2.map Prod.fst)) →
      ((fromSpec sp).data = sp.data ∧ (fromSpec sp).transform = sp.transform ∧
       (fromSpec sp).config = sp.config) ∧
      (fromSpec sp).mark = sp.mark ∧
      (fromSpec sp).encodings.length = sp.encoding.length ∧
      (∀ i k, ((fromSpec sp).encodings.get? i).bind (fun enc => jGet enc k) =
         (sp.encoding.get? i).bind (fun p => fromSpecExpectedLookup p.1 p.2 k)) := by
  intro sp hd ht hc henc
  refine ⟨⟨?_, ?_, ?_⟩, rfl, ?_, ?_⟩
  · simp only [fromSpec]
    cases hdd : sp.data with
    | none => rfl
    | some v =>
      rw [hdd] at hd
      have h2 : truthyJ v = true := hd
      show (if truthyJ v = true then some v else none) = some v
      rw [h2]
      rfl
  · simp only [fromSpec]
    cases hdd : sp.transform with
    | none => rfl
    | some v =>
      rw [hdd] at ht
      have h2 : truthyJ v = true := ht
      show (if truthyJ v = true then some v else none) = some v
      rw [h2]
      rfl
  · simp only [fromSpec]
    cases hdd : sp.config with
    | none => rfl
    | some v =>
      rw [hdd] at hc
      have h2 : truthyJ v = true := hc
      show (if truthyJ v = true then some v else none) = some v
      rw [h2]
      rfl
  · simp [fromSpec]
  · intro i k
    simp only [fromSpec]
    rw [List.get?_map]
    cases hgi : sp.encoding.get? i with
    | none => rfl
    | some p =>
      have hmem : p ∈ sp.encoding := List.get?_mem hgi
      obtain ⟨hnd, hch⟩ := henc p hmem
      simp only [Option.map_some', Option.some_bind]
      exact convertChannelDef_lookup p.1 p.2 hnd hch k

/-- The document used by the C7 witness: data/transform/config present, a
`scale: null` on the `y` channel, and a field-less count aggregate on the
`color` channel. -/
def c7WitnessSpec : VLUnitSpec :=
  { data := some (.obj [("values", .arr [.num 1, .num 2])])
  , transform := some (.arr [.obj [("filter", .str "datum.x ===2")]])
  , mark := .str "point"
  , encoding :=
      [ ("x", [("field", .str "x"), ("type", .str "quantitative")])
      , ("y", [("field", .str "x"), ("type", .str "quantitative"), ("scale", .null)])
      , ("color", [("aggregate", .str "count"), ("type", .str "quantitative")]) ]
  , config := some (.obj []) }

/-- C7 (witness): on the concrete document, data passes through, the `y`
channel's null scale becomes `false`, and the count aggregate without a
field receives the sentinel field `*`. -/
theorem fromSpec_normalization_witness :
    (truthyIfPresent c7WitnessSpec.data = true) ∧
    ((fromSpec c7WitnessSpec).data = c7WitnessSpec.data) ∧
    (((fromSpec c7WitnessSpec).encodings.get? 1).bind (fun enc => jGet enc "scale") =
       some (.bool false)) ∧
    (((fromSpec c7WitnessSpec).encodings.get? 2).bind (fun enc => jGet enc "field") =
       some (.str "*")) := by
  have henc : ∀ p ∈ c7WitnessSpec.encoding,
      (p.2.map Prod.fst).Nodup ∧ ¬ ("channel" ∈ p.2.map Prod.fst) := by
    intro p hp
    rcases List.mem_cons.mp hp with rfl | hp2
    · exact ⟨by decide, by decide⟩
    rcases List.mem_cons.mp hp2 with rfl | hp3
    · exact ⟨by decide, by decide⟩
    rcases List.mem_singleton.mp hp3 with rfl
    exact ⟨by decide, by decide⟩
  have h := fromSpec_normalization c7WitnessSpec rfl rfl rfl henc
  exact ⟨rfl, h.1.1, h.2.2.2 1 "scale", h.2.2.2 2 "field"⟩
